import Mathlib

/-!
# qan-agent: `qan/analyzer/mongo/parser/parser.go`

A shallow embedding of the MongoDB profile parser of the QAN agent: the
aggregation worker (`start`), the report builder (`createResult`) and the
lifecycle controller (`Parser.Start`, `Parser.Stop`, `Parser.Running`,
`Parser.Status`).

Modelling conventions

* `time.Time` is an `Int`: nanoseconds since Go's zero time.  `Truncate`
  rounds down to a multiple of `d` counted from the zero time, exactly as Go
  does, and returns its argument when `d ≤ 0`.  `Before`/`After` are `<`/`>`.
* `time.Duration` is an `int64`: the conversion `time.Duration(interval)` and
  the product with `time.Second` wrap modulo `2^64` (`toInt64`).
* `float64` values are only copied by this file, never computed with; they are
  carried as rationals.
* The status counters (`uint`) are naturals; reaching `2^64` increments is out
  of range of any run.
* Go maps are association lists; `mapSet` is `m[k] = v`, `mapGet` is `m[k]`.
* The worker is a goroutine blocked in `select`.  One `Event` is one choice of
  the `select` statements of its loop; a list of events is one schedule.
* The packages `mqd`, `report` and `event` are not part of this file: their
  functions are the fields of `Deps`.  `state.StatusToMap` is a parameter of
  `Parser.Status`.
-/

namespace MongoParser

/-! ## Time -/

/-- Go `time.Time`, as nanoseconds since the zero time. -/
abbrev Time := Int

/-- Go `time.Duration`, a count of nanoseconds held in an `int64`. -/
abbrev Duration := Int

/-- Conversion of an integer to `int64` (two's complement wrap-around). -/
def toInt64 (n : Int) : Int :=
  (n + 9223372036854775808) % 18446744073709551616 - 9223372036854775808

/-- Conversion of an integer to `uint` (wrap-around modulo `2^64`). -/
def toUint (n : Int) : Nat :=
  (n % 18446744073709551616).toNat

/-- Go `time.Second`. -/
def Second : Duration := 1000000000

/-- Go `Time.Truncate`: `t` rounded down to a multiple of `d` since the zero
time; `t` itself when `d ≤ 0`. -/
def Truncate (t : Time) (d : Duration) : Time :=
  if d ≤ 0 then t else t - t % d

/-- Go `Time.Before`. -/
def Before (t u : Time) : Bool := decide (t < u)

/-- Go `Time.After`. -/
def After (t u : Time) : Bool := decide (t > u)

/-- The constant `defaultInterval`, in seconds. -/
def defaultInterval : Nat := 60

/-! ## Go maps -/

/-- The map assignment `m[k] = v`. -/
def mapSet {V : Type} : List (String × V) → String → V → List (String × V)
  | [], k, v => [(k, v)]
  | (k0, v0) :: m, k, v => if k0 = k then (k, v) :: m else (k0, v0) :: mapSet m k v

/-- The map lookup `m[k]`. -/
def mapGet {V : Type} : List (String × V) → String → Option V
  | [], _ => none
  | (k0, v0) :: m, k => if k0 = k then some v0 else mapGet m k

/-! ## External data types -/

/-- Part of `pc.QAN` that the parser reads: the interval in seconds (a `uint`)
and the example-capture flag. -/
structure QAN where
  Interval : Nat
  ExampleQueries : Bool
deriving DecidableEq, Repr

/-- A `pm.SystemProfile` document: its timestamp and the fields only the
classifier reads. -/
structure SystemProfile (P : Type) where
  Ts : Time
  fields : P

/-- Go `error` values returned by `mqd.ProcessDoc`, as far as the worker tells
them apart. -/
inductive DocError where
  | ErrNoQuery
  | ErrQueryFiltered
  | ErrFingerprint
  | other (msg : String)
deriving DecidableEq, Repr

/-- The timing part of a per-query summary (`stats.Statistics`). -/
structure Statistics where
  Total : ℚ
  Min : ℚ
  Avg : ℚ
  Max : ℚ
deriving DecidableEq

/-- A per-query summary returned by `mqd.CalcQueryStats`
(`stats.QueryInfoAndCounters`), with the fields `createResult` reads. -/
structure QueryInfoAndCounters where
  ID : String
  Fingerprint : String
  Query : String
  Count : Int
  QueryTime : Statistics
deriving DecidableEq

/-- An `event.Example`. -/
structure Example where
  QueryTime : ℚ
  Query : String
deriving DecidableEq

/-- An `event.TimeStats`; the fields a struct literal leaves out are zero. -/
structure TimeStats where
  Sum : ℚ
  Min : ℚ
  Avg : ℚ
  Med : ℚ
  P95 : ℚ
  Max : ℚ
deriving DecidableEq

/-- An `event.Metrics`; only the time metrics are written by this file. -/
structure Metrics where
  TimeMetrics : List (String × TimeStats)
deriving DecidableEq

/-- An `event.Class`. -/
structure Class where
  Id : String
  Fingerprint : String
  Metrics : Metrics
  TotalQueries : Nat
  Example : Option Example
deriving DecidableEq

/-- A `report.Result`. -/
structure Result where
  Global : Class
  Class : List Class
deriving DecidableEq

/-- The worker-side status record `status`. -/
structure status where
  InDocs : Nat
  OkDocs : Nat
  OutReports : Nat
  IntervalStart : String
  IntervalEnd : String
  ErrFingerprint : Nat
  ErrParse : Nat
  SkippedDocs : Nat
deriving DecidableEq, Repr

/-- The functions of other packages that the parser calls.  `P` is the payload
of a document, `K` and `S` are `mqd.GroupKey` and `mqd.Stat`, `R` is
`qan.Report`. -/
structure Deps (P K S R : Type) where
  ProcessDoc : SystemProfile P → List (SystemProfile P → Bool) → List (K × S) →
    List (K × S) × Option DocError
  ToStatSlice : List (K × S) → List S
  CalcQueryStats : List S → Int → List QueryInfoAndCounters
  NewClass : String → String → Bool → Class
  NewMetrics : Metrics
  AddClass : Class → Class → Class
  MakeReport : QAN → Time → Time → Option Unit → Result → R
  Format : Time → String

/-! ## `createResult` -/

section Worker

variable {P K S R : Type}

/-- The body of the loop of `createResult`: the class built for one summary. -/
def createResult_class (x : Deps P K S R) (exampleQueries : Bool)
    (queryInfo : QueryInfoAndCounters) : Class :=
  let class0 := x.NewClass queryInfo.ID queryInfo.Fingerprint exampleQueries
  let class1 :=
    if exampleQueries then
      { class0 with Example := some ⟨queryInfo.QueryTime.Total, queryInfo.Query⟩ }
    else class0
  let metrics := x.NewMetrics
  let metrics : Metrics :=
    { metrics with
      TimeMetrics := mapSet metrics.TimeMetrics "Query_time"
        { Sum := queryInfo.QueryTime.Total
          Min := queryInfo.QueryTime.Min
          Avg := queryInfo.QueryTime.Avg
          Med := 0
          P95 := 0
          Max := queryInfo.QueryTime.Max } }
  { class1 with Metrics := metrics, TotalQueries := toUint queryInfo.Count }

/-- The function `createResult`. -/
def createResult (x : Deps P K S R) (stats : List (K × S)) (interval : Int)
    (exampleQueries : Bool) : Result :=
  let queries := x.ToStatSlice stats
  let global := x.NewClass "" "" false
  let queryStats := x.CalcQueryStats queries interval
  let acc := queryStats.foldl
    (fun (acc : Class × List Class) queryInfo =>
      let cls := createResult_class x exampleQueries queryInfo
      (x.AddClass acc.1 cls, acc.2 ++ [cls]))
    (global, [])
  { Global := acc.1, Class := acc.2 }

/-! ## The aggregation worker `start` -/

/-- The local variables of `start` that change in its loop. -/
structure Worker (K S : Type) where
  stats : List (K × S)
  timeStart : Time
  timeEnd : Time
  status : status

/-- One choice of the `select` statements of the loop: a document received
(with, in case a report has to be sent, whether the send on `reportChan` or
`doneChan` wins), `docsChan` closed, `doneChan` closed, a ping. -/
inductive Event (P : Type) where
  | doc (d : SystemProfile P) (sent : Bool)
  | closed
  | done
  | ping

/-- What one event produces: the worker afterwards (`none` once `start` has
returned), the reports sent on `reportChan`, the snapshots handed to `pong`. -/
structure Output (K S R : Type) where
  next : Option (Worker K S)
  reports : List R
  pongs : List status

/-- The local `interval`: the configured one, or the default when it is 0. -/
def interval (config : QAN) : Nat :=
  if config.Interval = 0 then defaultInterval else config.Interval

/-- The local `d := time.Duration(interval) * time.Second`. -/
def duration (config : QAN) : Duration :=
  toInt64 (toInt64 (interval config) * Second)

/-- The worker when it enters its loop, `now` being `time.Now()`. -/
def start_init (config : QAN) (now : Time) : Worker K S :=
  let d := duration config
  let timeStart := Truncate now d
  let timeStart := timeStart + d
  let timeEnd := timeStart + d
  { stats := [], timeStart := timeStart, timeEnd := timeEnd,
    status := ⟨0, 0, 0, "", "", 0, 0, 0⟩ }

/-- The tail of the document case: count the document and classify it. -/
def start_process (x : Deps P K S R) (w : Worker K S) (doc : SystemProfile P) :
    Worker K S :=
  let st := { w.status with InDocs := w.status.InDocs + 1 }
  let r := x.ProcessDoc doc [] w.stats
  let st :=
    match r.2 with
    | none => { st with OkDocs := st.OkDocs + 1 }
    | some DocError.ErrNoQuery => { st with SkippedDocs := st.SkippedDocs + 1 }
    | some DocError.ErrQueryFiltered => { st with SkippedDocs := st.SkippedDocs + 1 }
    | some DocError.ErrFingerprint => { st with ErrFingerprint := st.ErrFingerprint + 1 }
    | some (DocError.other _) => { st with ErrParse := st.ErrParse + 1 }
  { w with stats := r.1, status := st }

/-- The ping case: the window bounds are written into the status, which is
handed to `pong`. -/
def start_ping (x : Deps P K S R) (w : Worker K S) : Output K S R :=
  let st := { w.status with
    IntervalStart := x.Format w.timeStart, IntervalEnd := x.Format w.timeEnd }
  { next := some { w with status := st }, reports := [], pongs := [st] }

/-- One event of the loop of `start`. -/
def start_step (x : Deps P K S R) (config : QAN) (w : Worker K S) :
    Event P → Output K S R
  | Event.done => { next := none, reports := [], pongs := [] }
  | Event.closed => { next := none, reports := [], pongs := [] }
  | Event.ping => start_ping x w
  | Event.doc doc sent =>
    let ts := doc.Ts
    if Before ts w.timeStart then
      { next := some w, reports := [], pongs := [] }
    else if After ts w.timeEnd then
      let result := createResult x w.stats (toInt64 (interval config)) config.ExampleQueries
      let qanReport := x.MakeReport config w.timeStart w.timeEnd none result
      if sent then
        let st := { w.status with OutReports := w.status.OutReports + 1 }
        let timeStart := Truncate ts (duration config)
        let timeEnd := timeStart + duration config
        let w1 : Worker K S :=
          { stats := [], timeStart := timeStart, timeEnd := timeEnd, status := st }
        { next := some (start_process x w1 doc), reports := [qanReport], pongs := [] }
      else
        { next := none, reports := [], pongs := [] }
    else
      { next := some (start_process x w doc), reports := [], pongs := [] }

/-- The loop of `start` over a schedule of events, from the worker `w`. -/
def start_loop (x : Deps P K S R) (config : QAN) :
    Worker K S → List (Event P) → Output K S R
  | w, [] => { next := some w, reports := [], pongs := [] }
  | w, e :: es =>
    let o := start_step x config w e
    match o.next with
    | none => o
    | some w1 =>
      let o1 := start_loop x config w1 es
      { next := o1.next, reports := o.reports ++ o1.reports, pongs := o.pongs ++ o1.pongs }

/-- The function `start`, started at time `now`, over a schedule of events. -/
def start (x : Deps P K S R) (config : QAN) (now : Time) (events : List (Event P)) :
    Output K S R :=
  start_loop x config (start_init config now) events

/-- The schedule in which the documents arrive one after the other and every
report is taken from `reportChan`. -/
def feed (docs : List (SystemProfile P)) : List (Event P) :=
  docs.map (fun doc => Event.doc doc true)

end Worker

/-! ## The lifecycle controller

Channels and wait groups are identified by the number they were allocated
under.  The calls on one `Parser` are serialised by its mutex, so a run of the
controller is a sequence of calls.  `wg.Wait()` in `Stop` returns once the
worker has returned, which it does at its next `select` after `doneChan` is
closed (`Event.done`). -/

/-- The arguments of one `go start(...)`: a launched worker. -/
structure Goroutine where
  wg : Nat
  docsChan : Nat
  reportChan : Nat
  pingChan : Nat
  pongChan : Nat
  doneChan : Nat
deriving DecidableEq, Repr

/-- The struct `Parser`; a `nil` channel, map or pointer is `none`. -/
structure Parser where
  docsChan : Nat
  config : QAN
  reportChan : Option Nat
  pingChan : Option Nat
  pongChan : Option Nat
  status : Option (List (String × String))
  running : Bool
  doneChan : Option Nat
  wg : Option Nat
deriving DecidableEq, Repr

/-- A `Parser` together with what its methods act on: the allocator, the
workers launched and not yet joined, the channels closed so far. -/
structure Runtime where
  self : Parser
  fresh : Nat
  workers : List Goroutine
  closed : List Nat
deriving DecidableEq, Repr

/-- The function `New`. -/
def New (docsChan : Nat) (config : QAN) : Runtime :=
  { self :=
      { docsChan := docsChan, config := config, reportChan := none, pingChan := none,
        pongChan := none, status := none, running := false, doneChan := none, wg := none }
    fresh := docsChan + 1
    workers := []
    closed := [] }

/-- The method `Parser.Start`; it returns the report channel and a `nil`
error. -/
def Parser.Start (rt : Runtime) : (Option Nat × Option String) × Runtime :=
  if rt.self.running then
    ((rt.self.reportChan, none), rt)
  else
    let reportChan := rt.fresh
    let doneChan := rt.fresh + 1
    let pingChan := rt.fresh + 2
    let pongChan := rt.fresh + 3
    let wg := rt.fresh + 4
    let g : Goroutine :=
      { wg := wg, docsChan := rt.self.docsChan, reportChan := reportChan,
        pingChan := pingChan, pongChan := pongChan, doneChan := doneChan }
    let self : Parser :=
      { rt.self with
        reportChan := some reportChan, doneChan := some doneChan, pingChan := some pingChan,
        pongChan := some pongChan, status := some [], wg := some wg, running := true }
    ((self.reportChan, none),
      { self := self, fresh := rt.fresh + 5, workers := g :: rt.workers, closed := rt.closed })

/-- The method `Parser.Stop`. -/
def Parser.Stop (rt : Runtime) : Runtime :=
  if !rt.self.running then
    rt
  else
    let self : Parser := { rt.self with running := false }
    let closed := rt.closed ++ self.doneChan.toList
    let workers := rt.workers.filter (fun g => decide (some g.wg ≠ self.wg))
    let closed := closed ++ self.reportChan.toList
    { self := self, fresh := rt.fresh, workers := workers, closed := closed }

/-- The method `Parser.Running`. -/
def Parser.Running (rt : Runtime) : Bool :=
  rt.self.running

/-- The method `Parser.Name`. -/
def Parser.Name : String := "parser"

/-- The method `Parser.recvPong`: the snapshot received within the timeout,
as a map, or `nil`. -/
def Parser.recvPong (StatusToMap : MongoParser.status → List (String × String))
    (pong : Option MongoParser.status) : Option (List (String × String)) :=
  match pong with
  | some s => some (StatusToMap s)
  | none => none

/-- The loop `for k, v := range status { self.status[k] = v }`; writing into a
`nil` map panics. -/
def mergeStatus : Option (List (String × String)) → List (String × String) →
    Except String (Option (List (String × String)))
  | table, [] => Except.ok table
  | none, _ :: _ => Except.error "assignment to entry in nil map"
  | some m, (k, v) :: rest => mergeStatus (some (mapSet m k v)) rest

/-- The method `Parser.Status`, `pong` being what the worker answers within
the timeout, if anything. -/
def Parser.Status (StatusToMap : MongoParser.status → List (String × String)) (rt : Runtime)
    (pong : Option MongoParser.status) : Except String (Option (List (String × String)) × Runtime) :=
  if !Parser.Running rt then
    Except.ok (none, rt)
  else
    let status := Parser.recvPong StatusToMap pong
    match mergeStatus rt.self.status (status.getD []) with
    | Except.error e => Except.error e
    | Except.ok table =>
      Except.ok (table, { rt with self := { rt.self with status := table } })

/-- A call on the controller. -/
inductive Call where
  | Start
  | Stop
  | Status (pong : Option MongoParser.status)
deriving DecidableEq, Repr

/-- One call on the controller. -/
def Parser.call (StatusToMap : MongoParser.status → List (String × String)) (rt : Runtime) :
    Call → Except String Runtime
  | Call.Start => Except.ok (Parser.Start rt).2
  | Call.Stop => Except.ok (Parser.Stop rt)
  | Call.Status pong =>
    match Parser.Status StatusToMap rt pong with
    | Except.error e => Except.error e
    | Except.ok r => Except.ok r.2

/-- A sequence of calls on the controller. -/
def Parser.calls (StatusToMap : MongoParser.status → List (String × String)) :
    Runtime → List Call → Except String Runtime
  | rt, [] => Except.ok rt
  | rt, c :: cs =>
    match Parser.call StatusToMap rt c with
    | Except.error e => Except.error e
    | Except.ok rt1 => Parser.calls StatusToMap rt1 cs

/-- What holds of a controller made by `New` after any calls: when running,
its status table exists and the one worker not yet joined is the one bound to
its wait group; when not running, no worker is left. -/
def Parser.consistent (rt : Runtime) : Prop :=
  (rt.self.running = true →
    (∃ m, rt.self.status = some m) ∧ ∃ g, rt.workers = [g] ∧ rt.self.wg = some g.wg) ∧
  (rt.self.running = false → rt.workers = [])

/-! ## Notions of the specification -/

/-- The windows of the specification that hold a document: the distinct
values of the timestamps truncated to the interval. -/
def specNonEmptyWindows {P : Type} (d : Duration) (docs : List (SystemProfile P)) : Nat :=
  ((docs.map (fun doc => Truncate doc.Ts d)).dedup).length

/-- The starts of the windows of the specification, later than `t0`, that hold
a document: the distinct truncated timestamps greater than `t0`. -/
def specWindowsAfter {P : Type} (d : Duration) (t0 : Time) (docs : List (SystemProfile P)) :
    List Time :=
  ((docs.map (fun doc => Truncate doc.Ts d)).filter (fun t => decide (t0 < t))).dedup

/-- The documents of the window of the specification that starts at `t`: those
whose timestamp truncates to `t`. -/
def specWindowDocs {P : Type} (d : Duration) (t : Time) (docs : List (SystemProfile P)) :
    List (SystemProfile P) :=
  docs.filter (fun doc => decide (Truncate doc.Ts d = t))

/-- The report the specification gives the window that starts at `t`: its
bounds, and the result built from the accumulator `acc` after the documents
of the window are classified into it, in order. -/
def specReport {P K S R : Type} (x : Deps P K S R) (config : QAN) (acc : List (K × S))
    (docs : List (SystemProfile P)) (t : Time) : R :=
  x.MakeReport config t (t + duration config) none
    (createResult x
      ((specWindowDocs (duration config) t docs).foldl
        (fun s doc => (x.ProcessDoc doc [] s).1) acc)
      (toInt64 (interval config)) config.ExampleQueries)

/-! ## A concrete instance of the collaborators

Used to evaluate the worker and the report builder on explicit inputs: a
document carries the outcome the classifier gives it and its query text; a
stat is a query text with its count. -/

/-- Classification of a document: one more occurrence of its query. -/
def demoBump : List (String × (String × Nat)) → String → List (String × (String × Nat))
  | [], q => [(q, (q, 1))]
  | (k, (q0, n)) :: m, q =>
    if k = q then (k, (q0, n + 1)) :: m else (k, (q0, n)) :: demoBump m q

/-- A classifier, a reduction, a class library and a report envelope. -/
def demo : Deps (Option DocError × String) String (String × Nat) (Time × Time × Result) where
  ProcessDoc := fun doc _ stats =>
    match doc.fields.1 with
    | none => (demoBump stats doc.fields.2, none)
    | some e => (stats, some e)
  ToStatSlice := fun stats => stats.map Prod.snd
  CalcQueryStats := fun queries _ =>
    queries.map (fun q =>
      { ID := q.1, Fingerprint := q.1, Query := q.1, Count := q.2,
        QueryTime := ⟨3000000000000, 1000000000000, 1500000000000, 2000000000000⟩ })
  NewClass := fun id fingerprint _ =>
    { Id := id, Fingerprint := fingerprint, Metrics := ⟨[]⟩, TotalQueries := 0, Example := none }
  NewMetrics := ⟨[]⟩
  AddClass := fun g c => { g with TotalQueries := g.TotalQueries + c.TotalQueries }
  MakeReport := fun _ timeStart timeEnd _ result => (timeStart, timeEnd, result)
  Format := fun t => if t < 0 then "before the zero time" else "after the zero time"

/-- A `state.StatusToMap`: one entry per field of `status`, keyed by the name
tag of the field. -/
def demoStatusToMap (s : status) : List (String × String) :=
  [("docks-in", toString s.InDocs), ("docks-ok", toString s.OkDocs),
   ("reports-out", toString s.OutReports), ("interval-start", s.IntervalStart),
   ("interval-end", s.IntervalEnd), ("err-fingerprint", toString s.ErrFingerprint),
   ("err-parse", toString s.ErrParse), ("skipped-docs", toString s.SkippedDocs)]

/-- A configuration with a 60 second interval and no example capture. -/
def demoConfig : QAN := { Interval := 60, ExampleQueries := false }

/-- A document stamped `secs` seconds after the zero time that classifies as
the query `q`. -/
def demoDoc (secs : Int) (q : String) : SystemProfile (Option DocError × String) :=
  { Ts := secs * Second, fields := (none, q) }

/-- The status record with every counter at zero. -/
def demoStatus : status := ⟨0, 0, 0, "", "", 0, 0, 0⟩

/-! ## Lemmas on time -/

theorem interval_pos (config : QAN) : 1 ≤ interval config := by
  unfold interval defaultInterval
  split <;> omega

theorem toInt64_eq (n : Int) (h1 : -9223372036854775808 ≤ n) (h2 : n < 9223372036854775808) :
    toInt64 n = n := by
  unfold toInt64
  rw [Int.emod_eq_of_lt (by linarith) (by linarith)]
  ring

/-- The duration of an interval whose nanoseconds fit an `int64` is not
wrapped. -/
theorem duration_eq (config : QAN)
    (hfit : (interval config : Int) * Second < 9223372036854775808) :
    duration config = (interval config : Int) * Second ∧ 0 < duration config := by
  have h1 := interval_pos config
  have h2 : (1 : Int) ≤ (interval config : Int) := by exact_mod_cast h1
  have hs : Second = 1000000000 := rfl
  have e1 : toInt64 (interval config : Int) = (interval config : Int) :=
    toInt64_eq _ (by linarith) (by rw [hs] at hfit; linarith)
  have e2 : toInt64 ((interval config : Int) * Second) = (interval config : Int) * Second :=
    toInt64_eq _ (by rw [hs]; linarith) hfit
  unfold duration
  rw [e1, e2]
  exact ⟨rfl, by rw [hs]; linarith⟩

theorem Truncate_eq_mul (t d : Int) (hd : 0 < d) : Truncate t d = d * (t / d) := by
  simp only [Truncate, if_neg (not_le.mpr hd)]
  have := Int.emod_add_ediv t d
  linarith

theorem Truncate_emod (t d : Int) (hd : 0 < d) : Truncate t d % d = 0 := by
  rw [Truncate_eq_mul t d hd, Int.mul_emod_right]

theorem Truncate_le (t d : Int) (hd : 0 < d) : Truncate t d ≤ t ∧ t < Truncate t d + d := by
  simp only [Truncate, if_neg (not_le.mpr hd)]
  have h1 := Int.emod_nonneg t (ne_of_gt hd)
  have h2 := Int.emod_lt_of_pos t hd
  constructor <;> linarith

/-- A timestamp after an aligned instant truncates to that instant or later. -/
theorem Truncate_ge_aligned (t e d : Int) (hd : 0 < d) (he : e % d = 0) (h : e < t) :
    e ≤ Truncate t d := by
  rw [Truncate_eq_mul t d hd]
  have hek : e = d * (e / d) := by
    have := Int.emod_add_ediv e d
    linarith
  have hle : e / d ≤ t / d := Int.ediv_le_ediv hd (le_of_lt h)
  calc e = d * (e / d) := hek
    _ ≤ d * (t / d) := Int.mul_le_mul_of_nonneg_left hle (le_of_lt hd)

theorem Truncate_mono (a b d : Int) (hd : 0 < d) (h : a ≤ b) : Truncate a d ≤ Truncate b d := by
  rw [Truncate_eq_mul a d hd, Truncate_eq_mul b d hd]
  exact Int.mul_le_mul_of_nonneg_left (Int.ediv_le_ediv hd h) (le_of_lt hd)

theorem Truncate_ge_of_aligned_le (t e d : Int) (hd : 0 < d) (he : e % d = 0) (h : e ≤ t) :
    e ≤ Truncate t d := by
  rw [Truncate_eq_mul t d hd]
  have hek : e = d * (e / d) := by
    have := Int.emod_add_ediv e d
    linarith
  have hle : e / d ≤ t / d := Int.ediv_le_ediv hd h
  calc e = d * (e / d) := hek
    _ ≤ d * (t / d) := Int.mul_le_mul_of_nonneg_left hle (le_of_lt hd)

theorem aligned_gap (a b d : Int) (hd : 0 < d) (ha : a % d = 0) (hb : b % d = 0) (h : a < b) :
    a + d ≤ b := by
  obtain ⟨k, rfl⟩ := Int.dvd_of_emod_eq_zero ha
  obtain ⟨m, rfl⟩ := Int.dvd_of_emod_eq_zero hb
  have hkm : k < m := lt_of_mul_lt_mul_left h (le_of_lt hd)
  have h1 : k + 1 ≤ m := hkm
  calc d * k + d = d * (k + 1) := by ring
    _ ≤ d * m := Int.mul_le_mul_of_nonneg_left h1 (le_of_lt hd)

theorem Truncate_eq_of_window (t s d : Int) (hd : 0 < d) (hs : s % d = 0) (h1 : s ≤ t)
    (h2 : t < s + d) : Truncate t d = s := by
  have hge := Truncate_ge_of_aligned_le t s d hd hs h1
  rcases eq_or_lt_of_le hge with h | h
  · exact h.symm
  · have := aligned_gap s (Truncate t d) d hd hs (Truncate_emod t d hd) h
    have := (Truncate_le t d hd).1
    linarith

theorem lt_Truncate_iff (t s d : Int) (hd : 0 < d) (hs : s % d = 0) :
    s < Truncate t d ↔ s + d ≤ t := by
  constructor
  · intro h
    have := aligned_gap s (Truncate t d) d hd hs (Truncate_emod t d hd) h
    have := (Truncate_le t d hd).1
    linarith
  · intro h
    have hsd : (s + d) % d = 0 := by
      rw [Int.add_emod, hs]
      simp
    have := Truncate_ge_of_aligned_le t (s + d) d hd hsd h
    linarith

theorem le_Truncate_iff (t s d : Int) (hd : 0 < d) (hs : s % d = 0) :
    s ≤ Truncate t d ↔ s ≤ t := by
  constructor
  · intro h
    have := (Truncate_le t d hd).1
    linarith
  · exact Truncate_ge_of_aligned_le t s d hd hs

theorem dedup_cons_sorted (t : Int) :
    ∀ l : List Int, l.Pairwise (fun a b => a ≤ b) → (∀ x ∈ l, t ≤ x) →
      (t :: l).dedup = t :: (l.filter (fun x => decide (t < x))).dedup := by
  intro l
  induction l with
  | nil => intro _ _; simp
  | cons a l ih =>
    intro hs hb
    have hta := hb a (List.mem_cons_self _ _)
    rw [List.pairwise_cons] at hs
    rcases eq_or_lt_of_le hta with h | h
    · subst h
      rw [List.dedup_cons_of_mem (List.mem_cons_self _ _),
        ih hs.2 (fun y hy => hb y (List.mem_cons_of_mem _ hy))]
      simp
    · have hall : ∀ y ∈ a :: l, t < y := by
        intro y hy
        rcases List.mem_cons.mp hy with rfl | hy
        · exact h
        · exact lt_of_lt_of_le h (hs.1 y hy)
      have hnot : t ∉ a :: l := fun hm => lt_irrefl _ (hall t hm)
      rw [List.dedup_cons_of_not_mem hnot]
      have hf : (a :: l).filter (fun y => decide (t < y)) = a :: l :=
        List.filter_eq_self.mpr (fun y hy => decide_eq_true (hall y hy))
      rw [hf]

/-! ## Lemmas on maps -/

theorem mapGet_mapSet_self {V : Type} (m : List (String × V)) (k : String) (v : V) :
    mapGet (mapSet m k v) k = some v := by
  induction m with
  | nil => simp [mapSet, mapGet]
  | cons e m ih =>
    obtain ⟨k0, v0⟩ := e
    by_cases h : k0 = k
    · simp [mapSet, mapGet, h]
    · simp [mapSet, mapGet, h, ih]

theorem mapGet_mapSet_ne {V : Type} (m : List (String × V)) (k k1 : String) (v : V)
    (hne : k ≠ k1) : mapGet (mapSet m k v) k1 = mapGet m k1 := by
  induction m with
  | nil => simp [mapSet, mapGet, hne]
  | cons e m ih =>
    obtain ⟨k0, v0⟩ := e
    by_cases h : k0 = k
    · subst h
      simp [mapSet, mapGet, hne]
    · by_cases h1 : k0 = k1
      · simp only [mapSet, if_neg h, mapGet, if_pos h1]
      · simp only [mapSet, if_neg h, mapGet, if_neg h1, ih]

/-! ## Lemmas on `createResult` -/

section ResultLemmas

variable {P K S R : Type}

theorem createResult_foldl (x : Deps P K S R) (exampleQueries : Bool)
    (queryStats : List QueryInfoAndCounters) :
    ∀ (global : Class) (classes : List Class),
      queryStats.foldl
        (fun (acc : Class × List Class) queryInfo =>
          (x.AddClass acc.1 (createResult_class x exampleQueries queryInfo),
            acc.2 ++ [createResult_class x exampleQueries queryInfo]))
        (global, classes)
      = ((queryStats.map (createResult_class x exampleQueries)).foldl x.AddClass global,
          classes ++ queryStats.map (createResult_class x exampleQueries)) := by
  induction queryStats with
  | nil => intro global classes; simp
  | cons q qs ih =>
    intro global classes
    simp only [List.foldl_cons, List.map_cons]
    rw [ih]
    simp

/-- The result of `createResult`: the classes are the classes of the
summaries, in order, and the global class is their fold. -/
theorem createResult_eq (x : Deps P K S R) (stats : List (K × S)) (interval : Int)
    (exampleQueries : Bool) :
    (createResult x stats interval exampleQueries).Class
      = (x.CalcQueryStats (x.ToStatSlice stats) interval).map
          (createResult_class x exampleQueries) ∧
    (createResult x stats interval exampleQueries).Global
      = ((x.CalcQueryStats (x.ToStatSlice stats) interval).map
          (createResult_class x exampleQueries)).foldl x.AddClass (x.NewClass "" "" false) := by
  have h := createResult_foldl x exampleQueries
    (x.CalcQueryStats (x.ToStatSlice stats) interval) (x.NewClass "" "" false) []
  simp only [createResult]
  rw [h]
  simp

theorem toUint_eq (n : Int) (h1 : 0 ≤ n) (h2 : n < 9223372036854775808) :
    ((toUint n : Nat) : Int) = n := by
  unfold toUint
  rw [Int.emod_eq_of_lt h1 (by linarith)]
  exact Int.toNat_of_nonneg h1

end ResultLemmas

/-! ## Lemmas on the worker -/

section WorkerLemmas

variable {P K S R : Type}

theorem start_loop_nil (x : Deps P K S R) (config : QAN) (w : Worker K S) :
    start_loop x config w [] = { next := some w, reports := [], pongs := [] } := rfl

theorem start_loop_cons_none (x : Deps P K S R) (config : QAN) (w : Worker K S)
    (e : Event P) (es : List (Event P)) (h : (start_step x config w e).next = none) :
    start_loop x config w (e :: es) = start_step x config w e := by
  simp only [start_loop]
  split
  · rfl
  · rename_i w1 h1
    rw [h] at h1
    cases h1

theorem start_loop_cons_some (x : Deps P K S R) (config : QAN) (w w1 : Worker K S)
    (e : Event P) (es : List (Event P)) (h : (start_step x config w e).next = some w1) :
    start_loop x config w (e :: es) =
      { next := (start_loop x config w1 es).next
        reports := (start_step x config w e).reports ++ (start_loop x config w1 es).reports
        pongs := (start_step x config w e).pongs ++ (start_loop x config w1 es).pongs } := by
  simp only [start_loop]
  split
  · rename_i h1
    rw [h] at h1
    cases h1
  · rename_i w2 h2
    rw [h] at h2
    cases h2
    rfl

theorem start_loop_append (x : Deps P K S R) (config : QAN) (es1 es2 : List (Event P)) :
    ∀ (w w1 : Worker K S), (start_loop x config w es1).next = some w1 →
      start_loop x config w (es1 ++ es2) =
        { next := (start_loop x config w1 es2).next
          reports := (start_loop x config w es1).reports ++ (start_loop x config w1 es2).reports
          pongs := (start_loop x config w es1).pongs ++ (start_loop x config w1 es2).pongs } := by
  induction es1 with
  | nil =>
    intro w w1 h
    simp only [start_loop_nil, Option.some.injEq] at h
    subst h
    simp [start_loop_nil]
  | cons e es ih =>
    intro w w1 h
    cases hstep : (start_step x config w e).next with
    | none =>
      rw [start_loop_cons_none x config w e es hstep, hstep] at h
      cases h
    | some w2 =>
      rw [start_loop_cons_some x config w w2 e es hstep] at h
      simp only at h
      rw [List.cons_append, start_loop_cons_some x config w w2 e (es ++ es2) hstep,
        ih w2 w1 h, start_loop_cons_some x config w w2 e es hstep]
      simp [List.append_assoc]

/-- A document inside the closed range of the current window is classified
into the current accumulator; nothing is sent. -/
theorem start_step_inside (x : Deps P K S R) (config : QAN) (w : Worker K S)
    (doc : SystemProfile P) (sent : Bool)
    (h1 : w.timeStart ≤ doc.Ts) (h2 : doc.Ts ≤ w.timeEnd) :
    start_step x config w (Event.doc doc sent) =
      { next := some (start_process x w doc), reports := [], pongs := [] } := by
  have hb : Before doc.Ts w.timeStart = false := decide_eq_false (not_lt.mpr h1)
  have ha : After doc.Ts w.timeEnd = false := decide_eq_false (not_lt.mpr h2)
  simp [start_step, hb, ha]

/-- A document after the end of the current window, whose report is taken:
the report of the current window is sent, then the document is classified
into an empty accumulator under the window of its own timestamp. -/
theorem start_step_rollover (x : Deps P K S R) (config : QAN) (w : Worker K S)
    (doc : SystemProfile P)
    (h1 : w.timeStart ≤ doc.Ts) (h2 : w.timeEnd < doc.Ts) :
    start_step x config w (Event.doc doc true) =
      { next := some (start_process x
          { stats := [], timeStart := Truncate doc.Ts (duration config)
            timeEnd := Truncate doc.Ts (duration config) + duration config
            status := { w.status with OutReports := w.status.OutReports + 1 } } doc)
        reports := [x.MakeReport config w.timeStart w.timeEnd none
          (createResult x w.stats (toInt64 (interval config)) config.ExampleQueries)]
        pongs := [] } := by
  have hb : Before doc.Ts w.timeStart = false := decide_eq_false (not_lt.mpr h1)
  have ha : After doc.Ts w.timeEnd = true := decide_eq_true h2
  simp [start_step, hb, ha]

/-- A document before the start of the current window changes nothing. -/
theorem start_step_late (x : Deps P K S R) (config : QAN) (w : Worker K S)
    (doc : SystemProfile P) (sent : Bool) (h : doc.Ts < w.timeStart) :
    start_step x config w (Event.doc doc sent) =
      { next := some w, reports := [], pongs := [] } := by
  have hb : Before doc.Ts w.timeStart = true := decide_eq_true h
  simp [start_step, hb]

theorem start_process_window (x : Deps P K S R) (w : Worker K S) (doc : SystemProfile P) :
    (start_process x w doc).timeStart = w.timeStart ∧
    (start_process x w doc).timeEnd = w.timeEnd ∧
    (start_process x w doc).stats = (x.ProcessDoc doc [] w.stats).1 := by
  simp [start_process]

/-- The shapes a step that leaves the worker running can take. -/
theorem start_step_cases (x : Deps P K S R) (config : QAN) (w w1 : Worker K S)
    (e : Event P) (h : (start_step x config w e).next = some w1) :
    (e = Event.ping ∧ w1 = { w with status := { w.status with
        IntervalStart := x.Format w.timeStart, IntervalEnd := x.Format w.timeEnd } }) ∨
    (∃ doc sent, e = Event.doc doc sent ∧ doc.Ts < w.timeStart ∧ w1 = w) ∨
    (∃ doc sent, e = Event.doc doc sent ∧ w.timeStart ≤ doc.Ts ∧ doc.Ts ≤ w.timeEnd ∧
      w1 = start_process x w doc) ∨
    (∃ doc, e = Event.doc doc true ∧ w.timeStart ≤ doc.Ts ∧ w.timeEnd < doc.Ts ∧
      w1 = start_process x
        { stats := [], timeStart := Truncate doc.Ts (duration config)
          timeEnd := Truncate doc.Ts (duration config) + duration config
          status := { w.status with OutReports := w.status.OutReports + 1 } } doc) := by
  cases e with
  | done => simp [start_step] at h
  | closed => simp [start_step] at h
  | ping =>
    left
    simp only [start_step, start_ping, Option.some.injEq] at h
    exact ⟨rfl, h.symm⟩
  | doc doc sent =>
    right
    rcases lt_or_le doc.Ts w.timeStart with hl | hl
    · left
      rw [start_step_late x config w doc sent hl] at h
      simp only [Option.some.injEq] at h
      exact ⟨doc, sent, rfl, hl, h.symm⟩
    · right
      rcases le_or_lt doc.Ts w.timeEnd with hi | hi
      · left
        rw [start_step_inside x config w doc sent hl hi] at h
        simp only [Option.some.injEq] at h
        exact ⟨doc, sent, rfl, hl, hi, h.symm⟩
      · right
        cases sent with
        | true =>
          rw [start_step_rollover x config w doc hl hi] at h
          simp only [Option.some.injEq] at h
          exact ⟨doc, rfl, hl, hi, h.symm⟩
        | false =>
          have hb : Before doc.Ts w.timeStart = false := decide_eq_false (not_lt.mpr hl)
          have ha : After doc.Ts w.timeEnd = true := decide_eq_true hi
          simp [start_step, hb, ha] at h

/-- A property kept by every step is kept by the loop. -/
theorem start_loop_invariant (x : Deps P K S R) (config : QAN) (Inv : Worker K S → Prop)
    (hstep : ∀ w e w1, Inv w → (start_step x config w e).next = some w1 → Inv w1) :
    ∀ (es : List (Event P)) (w w1 : Worker K S), Inv w →
      (start_loop x config w es).next = some w1 → Inv w1 := by
  intro es
  induction es with
  | nil =>
    intro w w1 hw h
    simp only [start_loop_nil, Option.some.injEq] at h
    exact h ▸ hw
  | cons e es ih =>
    intro w w1 hw h
    cases hs : (start_step x config w e).next with
    | none =>
      rw [start_loop_cons_none x config w e es hs, hs] at h
      cases h
    | some w2 =>
      rw [start_loop_cons_some x config w w2 e es hs] at h
      exact ih w2 w1 (hstep w e w2 hw hs) h

/-- Classifying a list of documents one after the other keeps the window and
folds the classifier over the accumulator. -/
theorem foldl_start_process (x : Deps P K S R) (docs : List (SystemProfile P)) :
    ∀ w : Worker K S,
      (docs.foldl (start_process x) w).timeStart = w.timeStart ∧
      (docs.foldl (start_process x) w).timeEnd = w.timeEnd ∧
      (docs.foldl (start_process x) w).stats
        = docs.foldl (fun s doc => (x.ProcessDoc doc [] s).1) w.stats := by
  induction docs with
  | nil => intro w; exact ⟨rfl, rfl, rfl⟩
  | cons doc docs ih =>
    intro w
    obtain ⟨h1, h2, h3⟩ := ih (start_process x w doc)
    obtain ⟨p1, p2, p3⟩ := start_process_window x w doc
    simp only [List.foldl_cons]
    exact ⟨h1.trans p1, h2.trans p2, by rw [h3, p3]⟩

/-- Documents that all lie in the closed range of the current window are
classified into it one after the other; nothing is sent. -/
theorem start_loop_inside (x : Deps P K S R) (config : QAN) (docs : List (SystemProfile P)) :
    ∀ w : Worker K S, (∀ doc ∈ docs, w.timeStart ≤ doc.Ts ∧ doc.Ts ≤ w.timeEnd) →
      start_loop x config w (feed docs)
        = { next := some (docs.foldl (start_process x) w), reports := [], pongs := [] } := by
  induction docs with
  | nil => intro w _; rfl
  | cons doc docs ih =>
    intro w h
    have hd := h doc (List.mem_cons_self _ _)
    have hs := start_step_inside x config w doc true hd.1 hd.2
    obtain ⟨p1, p2, _⟩ := start_process_window x w doc
    have hrest := ih (start_process x w doc) (fun d hdm => by
      rw [p1, p2]
      exact h d (List.mem_cons_of_mem _ hdm))
    simp only [feed, List.map_cons] at hrest ⊢
    rw [start_loop_cons_some x config w (start_process x w doc) _ _ (by rw [hs]), hs, hrest]
    simp

/-- The counters after a document is counted and classified. -/
theorem start_process_counters (x : Deps P K S R) (w : Worker K S) (doc : SystemProfile P) :
    (start_process x w doc).status.InDocs = w.status.InDocs + 1 ∧
    (start_process x w doc).status.OutReports = w.status.OutReports ∧
    ((x.ProcessDoc doc [] w.stats).2 = none →
      (start_process x w doc).status.OkDocs = w.status.OkDocs + 1 ∧
      (start_process x w doc).status.SkippedDocs = w.status.SkippedDocs ∧
      (start_process x w doc).status.ErrFingerprint = w.status.ErrFingerprint ∧
      (start_process x w doc).status.ErrParse = w.status.ErrParse) ∧
    ((x.ProcessDoc doc [] w.stats).2 = some DocError.ErrNoQuery ∨
        (x.ProcessDoc doc [] w.stats).2 = some DocError.ErrQueryFiltered →
      (start_process x w doc).status.OkDocs = w.status.OkDocs ∧
      (start_process x w doc).status.SkippedDocs = w.status.SkippedDocs + 1 ∧
      (start_process x w doc).status.ErrFingerprint = w.status.ErrFingerprint ∧
      (start_process x w doc).status.ErrParse = w.status.ErrParse) ∧
    ((x.ProcessDoc doc [] w.stats).2 = some DocError.ErrFingerprint →
      (start_process x w doc).status.OkDocs = w.status.OkDocs ∧
      (start_process x w doc).status.SkippedDocs = w.status.SkippedDocs ∧
      (start_process x w doc).status.ErrFingerprint = w.status.ErrFingerprint + 1 ∧
      (start_process x w doc).status.ErrParse = w.status.ErrParse) ∧
    (∀ msg, (x.ProcessDoc doc [] w.stats).2 = some (DocError.other msg) →
      (start_process x w doc).status.OkDocs = w.status.OkDocs ∧
      (start_process x w doc).status.SkippedDocs = w.status.SkippedDocs ∧
      (start_process x w doc).status.ErrFingerprint = w.status.ErrFingerprint ∧
      (start_process x w doc).status.ErrParse = w.status.ErrParse + 1) := by
  simp only [start_process]
  rcases h : (x.ProcessDoc doc [] w.stats).2 with _ | e
  · simp
  · cases e <;> simp

/-- Counting and classifying a document keeps documents-in equal to the sum of
the outcome counters and lowers no counter. -/
theorem start_process_balance (x : Deps P K S R) (w : Worker K S) (doc : SystemProfile P) :
    ((start_process x w doc).status.OkDocs + (start_process x w doc).status.SkippedDocs
        + (start_process x w doc).status.ErrFingerprint + (start_process x w doc).status.ErrParse
      = w.status.OkDocs + w.status.SkippedDocs + w.status.ErrFingerprint + w.status.ErrParse + 1) ∧
    w.status.OkDocs ≤ (start_process x w doc).status.OkDocs ∧
    w.status.SkippedDocs ≤ (start_process x w doc).status.SkippedDocs ∧
    w.status.ErrFingerprint ≤ (start_process x w doc).status.ErrFingerprint ∧
    w.status.ErrParse ≤ (start_process x w doc).status.ErrParse := by
  simp only [start_process]
  rcases h : (x.ProcessDoc doc [] w.stats).2 with _ | e
  · simp; omega
  · cases e <;> simp <;> omega

/-- Every step that leaves the worker running keeps documents-in equal to the
sum of the outcome counters, and lowers no counter. -/
theorem start_step_counters (x : Deps P K S R) (config : QAN) (w w1 : Worker K S)
    (e : Event P) (h : (start_step x config w e).next = some w1) :
    (w.status.InDocs = w.status.OkDocs + w.status.SkippedDocs + w.status.ErrFingerprint
        + w.status.ErrParse →
      w1.status.InDocs = w1.status.OkDocs + w1.status.SkippedDocs + w1.status.ErrFingerprint
        + w1.status.ErrParse) ∧
    w.status.InDocs ≤ w1.status.InDocs ∧ w.status.OkDocs ≤ w1.status.OkDocs ∧
    w.status.OutReports ≤ w1.status.OutReports ∧
    w.status.SkippedDocs ≤ w1.status.SkippedDocs ∧
    w.status.ErrFingerprint ≤ w1.status.ErrFingerprint ∧
    w.status.ErrParse ≤ w1.status.ErrParse := by
  rcases start_step_cases x config w w1 e h with
    ⟨_, rfl⟩ | ⟨doc, sent, _, _, rfl⟩ | ⟨doc, sent, _, _, _, rfl⟩ | ⟨doc, _, _, _, rfl⟩
  · simp
  · simp
  · obtain ⟨c1, c2, _⟩ := start_process_counters x w doc
    obtain ⟨b1, b2, b3, b4, b5⟩ := start_process_balance x w doc
    refine ⟨fun hb => ?_, ?_, b2, ?_, b3, b4, b5⟩ <;> omega
  · obtain ⟨c1, c2, _⟩ := start_process_counters x
      ({ stats := [], timeStart := Truncate doc.Ts (duration config)
         timeEnd := Truncate doc.Ts (duration config) + duration config
         status := { w.status with OutReports := w.status.OutReports + 1 } } : Worker K S) doc
    obtain ⟨b1, b2, b3, b4, b5⟩ := start_process_balance x
      ({ stats := [], timeStart := Truncate doc.Ts (duration config)
         timeEnd := Truncate doc.Ts (duration config) + duration config
         status := { w.status with OutReports := w.status.OutReports + 1 } } : Worker K S) doc
    refine ⟨fun hb => ?_, ?_, ?_, ?_, ?_, ?_, ?_⟩ <;> dsimp only at * <;> omega

/-- The window invariant: the start is a multiple of `d` and the end is the
start plus `d`. -/
theorem start_step_window (x : Deps P K S R) (config : QAN) (w w1 : Worker K S)
    (e : Event P) (hd : 0 < duration config)
    (hal : w.timeStart % duration config = 0)
    (hend : w.timeEnd = w.timeStart + duration config)
    (h : (start_step x config w e).next = some w1) :
    (w1.timeStart % duration config = 0 ∧ w1.timeEnd = w1.timeStart + duration config) ∧
    ((w1.timeStart = w.timeStart ∧ w1.timeEnd = w.timeEnd) ∨
      (w.timeEnd ≤ w1.timeStart ∧ w.timeStart < w1.timeStart)) := by
  rcases start_step_cases x config w w1 e h with
    ⟨_, rfl⟩ | ⟨doc, sent, _, _, rfl⟩ | ⟨doc, sent, _, _, _, rfl⟩ | ⟨doc, _, _, hafter, rfl⟩
  · exact ⟨⟨hal, hend⟩, Or.inl ⟨rfl, rfl⟩⟩
  · exact ⟨⟨hal, hend⟩, Or.inl ⟨rfl, rfl⟩⟩
  · obtain ⟨p1, p2, _⟩ := start_process_window x w doc
    rw [p1, p2]
    exact ⟨⟨hal, hend⟩, Or.inl ⟨rfl, rfl⟩⟩
  · rw [(start_process_window x _ doc).1, (start_process_window x _ doc).2.1]
    dsimp only
    have hale : w.timeEnd % duration config = 0 := by
      rw [hend, Int.add_emod, hal]
      simp
    have hge := Truncate_ge_aligned doc.Ts w.timeEnd (duration config) hd hale hafter
    refine ⟨⟨Truncate_emod _ _ hd, rfl⟩, Or.inr ⟨hge, ?_⟩⟩
    linarith

/-- The worker enters its loop with an aligned window of length `d`. -/
theorem start_init_window (config : QAN) (now : Time) (hd : 0 < duration config) :
    (start_init config now : Worker K S).timeStart % duration config = 0 ∧
    (start_init config now : Worker K S).timeEnd
      = (start_init config now : Worker K S).timeStart + duration config := by
  refine ⟨?_, rfl⟩
  show (Truncate now (duration config) + duration config) % duration config = 0
  rw [Int.add_emod, Truncate_emod now _ hd]
  simp

/-- The reports of a run are at most as many as the distinct truncated
timestamps, later than the start of the current window, of the documents. -/
theorem start_loop_reports_le (x : Deps P K S R) (config : QAN) (hd : 0 < duration config)
    (docs : List (SystemProfile P)) :
    ∀ w : Worker K S, w.timeEnd = w.timeStart + duration config →
      (start_loop x config w (feed docs)).reports.length ≤
        (((docs.map (fun doc => Truncate doc.Ts (duration config))).toFinset).filter
          (fun t => w.timeStart < t)).card := by
  induction docs with
  | nil => intro w _; simp [feed, start_loop_nil]
  | cons doc docs ih =>
    intro w hend
    have hfeed : feed (doc :: docs) = Event.doc doc true :: feed docs := rfl
    have hsub : ((docs.map (fun doc => Truncate doc.Ts (duration config))).toFinset).filter
          (fun t => w.timeStart < t) ⊆
        (((doc :: docs).map (fun doc => Truncate doc.Ts (duration config))).toFinset).filter
          (fun t => w.timeStart < t) := by
      apply Finset.filter_subset_filter
      simp only [List.map_cons, List.toFinset_cons]
      exact Finset.subset_insert _ _
    rw [hfeed]
    rcases lt_or_le doc.Ts w.timeStart with hl | hl
    · have hs := start_step_late x config w doc true hl
      rw [start_loop_cons_some x config w w _ _ (by rw [hs]), hs]
      simp only [List.nil_append]
      exact le_trans (ih w hend) (Finset.card_le_card hsub)
    · rcases le_or_lt doc.Ts w.timeEnd with hi | hi
      · have hs := start_step_inside x config w doc true hl hi
        obtain ⟨p1, p2, _⟩ := start_process_window x w doc
        rw [start_loop_cons_some x config w (start_process x w doc) _ _ (by rw [hs]), hs]
        simp only [List.nil_append]
        have h1 := ih (start_process x w doc) (by rw [p1, p2]; exact hend)
        rw [p1] at h1
        exact le_trans h1 (Finset.card_le_card hsub)
      · have hs := start_step_rollover x config w doc hl hi
        rw [start_loop_cons_some x config w _ _ _ (by rw [hs]), hs]
        simp only [List.singleton_append, List.length_cons]
        have h1 := ih (start_process x
          { stats := [], timeStart := Truncate doc.Ts (duration config)
            timeEnd := Truncate doc.Ts (duration config) + duration config
            status := { w.status with OutReports := w.status.OutReports + 1 } } doc)
          (by rw [(start_process_window x _ doc).1, (start_process_window x _ doc).2.1])
        rw [(start_process_window x _ doc).1] at h1
        dsimp only at h1
        have hlt : w.timeStart < Truncate doc.Ts (duration config) := by
          have := (Truncate_le doc.Ts (duration config) hd).2
          linarith
        have hnot : Truncate doc.Ts (duration config) ∉
            ((docs.map (fun doc => Truncate doc.Ts (duration config))).toFinset).filter
              (fun t => Truncate doc.Ts (duration config) < t) := by
          simp
        have hins : insert (Truncate doc.Ts (duration config))
            (((docs.map (fun doc => Truncate doc.Ts (duration config))).toFinset).filter
              (fun t => Truncate doc.Ts (duration config) < t)) ⊆
            (((doc :: docs).map (fun doc => Truncate doc.Ts (duration config))).toFinset).filter
              (fun t => w.timeStart < t) := by
          intro t ht
          simp only [Finset.mem_insert, Finset.mem_filter, List.mem_toFinset, List.map_cons,
            List.mem_cons] at ht ⊢
          rcases ht with ht | ⟨hm, hgt⟩
          · rw [ht]
            exact ⟨Or.inl rfl, hlt⟩
          · exact ⟨Or.inr hm, lt_trans hlt hgt⟩
        have hcard := Finset.card_le_card hins
        rw [Finset.card_insert_of_not_mem hnot] at hcard
        omega

theorem specReport_cons_ne (x : Deps P K S R) (config : QAN) (acc : List (K × S))
    (doc : SystemProfile P) (docs : List (SystemProfile P)) (t : Time)
    (h : Truncate doc.Ts (duration config) ≠ t) :
    specReport x config acc (doc :: docs) t = specReport x config acc docs t := by
  have hf : specWindowDocs (duration config) t (doc :: docs)
      = specWindowDocs (duration config) t docs := by
    unfold specWindowDocs
    rw [List.filter_cons_of_neg]
    simpa using h
  unfold specReport
  rw [hf]

theorem specReport_cons_eq (x : Deps P K S R) (config : QAN) (acc : List (K × S))
    (doc : SystemProfile P) (docs : List (SystemProfile P)) (t : Time)
    (h : Truncate doc.Ts (duration config) = t) :
    specReport x config acc (doc :: docs) t
      = specReport x config (x.ProcessDoc doc [] acc).1 docs t := by
  have hf : specWindowDocs (duration config) t (doc :: docs)
      = doc :: specWindowDocs (duration config) t docs := by
    unfold specWindowDocs
    rw [List.filter_cons_of_pos]
    simpa using h
  unfold specReport
  rw [hf, List.foldl_cons]

theorem specWindowsAfter_cons_skip (d : Duration) (t0 : Time) (doc : SystemProfile P)
    (docs : List (SystemProfile P)) (h : Truncate doc.Ts d ≤ t0) :
    specWindowsAfter d t0 (doc :: docs) = specWindowsAfter d t0 docs := by
  unfold specWindowsAfter
  rw [List.map_cons, List.filter_cons_of_neg]
  simpa using h

theorem specWindowsAfter_mem (d : Duration) (t0 t : Time) (docs : List (SystemProfile P))
    (h : t ∈ specWindowsAfter d t0 docs) :
    t0 < t ∧ ∃ doc ∈ docs, Truncate doc.Ts d = t := by
  unfold specWindowsAfter at h
  rw [List.mem_dedup, List.mem_filter, List.mem_map] at h
  obtain ⟨⟨doc, hm, he⟩, hlt⟩ := h
  exact ⟨by simpa using hlt, doc, hm, he⟩

theorem specWindowsAfter_cons_new (d : Duration) (hd : 0 < d) (t0 : Time)
    (doc : SystemProfile P) (docs : List (SystemProfile P))
    (hs : (doc :: docs).Pairwise (fun a b => a.Ts ≤ b.Ts))
    (h : t0 < Truncate doc.Ts d) :
    specWindowsAfter d t0 (doc :: docs)
      = Truncate doc.Ts d :: specWindowsAfter d (Truncate doc.Ts d) docs := by
  rw [List.pairwise_cons] at hs
  have hall : ∀ y ∈ docs.map (fun doc => Truncate doc.Ts d), Truncate doc.Ts d ≤ y := by
    intro y hy
    obtain ⟨b, hb, rfl⟩ := List.mem_map.mp hy
    exact Truncate_mono _ _ d hd (hs.1 b hb)
  have hsorted : (docs.map (fun doc => Truncate doc.Ts d)).Pairwise (fun a b => a ≤ b) := by
    rw [List.pairwise_map]
    exact hs.2.imp (fun hab => Truncate_mono _ _ d hd hab)
  unfold specWindowsAfter
  rw [List.map_cons, List.filter_cons_of_pos (by simpa using h)]
  have hf : (docs.map (fun doc => Truncate doc.Ts d)).filter (fun t => decide (t0 < t))
      = docs.map (fun doc => Truncate doc.Ts d) :=
    List.filter_eq_self.mpr (fun y hy => decide_eq_true (lt_of_lt_of_le h (hall y hy)))
  rw [hf]
  exact dedup_cons_sorted _ _ hsorted hall

/-- The reports of a run over documents with non-decreasing timestamps, none
at a multiple of `d`, from a worker with an aligned window: nothing when no
document opens a later window; otherwise the report of the current window,
then the reports of the later windows but the last. -/
theorem start_loop_reports_eq (x : Deps P K S R) (config : QAN) (hd : 0 < duration config)
    (docs : List (SystemProfile P)) :
    ∀ w : Worker K S, w.timeStart % duration config = 0 →
      w.timeEnd = w.timeStart + duration config →
      docs.Pairwise (fun a b => a.Ts ≤ b.Ts) →
      (∀ doc ∈ docs, doc.Ts % duration config ≠ 0) →
      (start_loop x config w (feed docs)).reports =
        if specWindowsAfter (duration config) w.timeStart docs = [] then []
        else specReport x config w.stats docs w.timeStart ::
          (specWindowsAfter (duration config) w.timeStart docs).dropLast.map
            (specReport x config [] docs) := by
  induction docs with
  | nil =>
    intro w _ _ _ _
    simp [feed, start_loop_nil, specWindowsAfter]
  | cons doc docs ih =>
    intro w hal hend hsorted hoff
    have hfeed : feed (doc :: docs) = Event.doc doc true :: feed docs := rfl
    have hsorted1 := (List.pairwise_cons.mp hsorted).2
    have hoff1 : ∀ b ∈ docs, b.Ts % duration config ≠ 0 :=
      fun b hb => hoff b (List.mem_cons_of_mem _ hb)
    have hmapne : ∀ ts : List Time, (∀ t ∈ ts, Truncate doc.Ts (duration config) ≠ t) →
        ts.map (specReport x config [] (doc :: docs)) = ts.map (specReport x config [] docs) := by
      intro ts hts
      exact List.map_congr_left (fun t ht => specReport_cons_ne x config [] doc docs t (hts t ht))
    rw [hfeed]
    rcases lt_or_le doc.Ts w.timeStart with hl | hl
    · -- late
      have hs := start_step_late x config w doc true hl
      have htr : Truncate doc.Ts (duration config) < w.timeStart :=
        lt_of_le_of_lt (Truncate_le doc.Ts _ hd).1 hl
      rw [start_loop_cons_some x config w w _ _ (by rw [hs]), hs]
      simp only [List.nil_append]
      rw [ih w hal hend hsorted1 hoff1,
        specWindowsAfter_cons_skip _ _ doc docs (le_of_lt htr),
        specReport_cons_ne x config w.stats doc docs _ (ne_of_lt htr),
        hmapne _ (fun t ht => ne_of_lt (lt_trans htr
          (specWindowsAfter_mem _ _ t docs (List.mem_of_mem_dropLast ht)).1))]
    · rcases le_or_lt doc.Ts w.timeEnd with hi | hi
      · -- inside
        have hne : doc.Ts ≠ w.timeEnd := by
          intro he
          apply hoff doc (List.mem_cons_self _ _)
          rw [he, hend, Int.add_emod, hal]
          simp
        have hlt : doc.Ts < w.timeStart + duration config := by
          rw [← hend]
          exact lt_of_le_of_ne hi hne
        have htr : Truncate doc.Ts (duration config) = w.timeStart :=
          Truncate_eq_of_window _ _ _ hd hal hl hlt
        have hs := start_step_inside x config w doc true hl hi
        obtain ⟨p1, p2, p3⟩ := start_process_window x w doc
        rw [start_loop_cons_some x config w (start_process x w doc) _ _ (by rw [hs]), hs]
        simp only [List.nil_append]
        rw [ih (start_process x w doc) (by rw [p1]; exact hal) (by rw [p1, p2]; exact hend)
            hsorted1 hoff1, p1, p3,
          specWindowsAfter_cons_skip _ _ doc docs (le_of_eq htr),
          specReport_cons_eq x config w.stats doc docs _ htr,
          hmapne _ (fun t ht => by
            rw [htr]
            exact ne_of_lt
              (specWindowsAfter_mem _ _ t docs (List.mem_of_mem_dropLast ht)).1)]
      · -- rollover
        have hale : w.timeEnd % duration config = 0 := by
          rw [hend, Int.add_emod, hal]
          simp
        have hge := Truncate_ge_aligned doc.Ts w.timeEnd (duration config) hd hale hi
        have hgt : w.timeStart < Truncate doc.Ts (duration config) := by linarith
        have hs := start_step_rollover x config w doc hl hi
        rw [start_loop_cons_some x config w _ _ _ (by rw [hs]), hs]
        simp only [List.singleton_append]
        rw [ih _ (by rw [(start_process_window x _ doc).1]; dsimp only
                     exact Truncate_emod _ _ hd)
            (by rw [(start_process_window x _ doc).1, (start_process_window x _ doc).2.1])
            hsorted1 hoff1,
          (start_process_window x _ doc).1, (start_process_window x _ doc).2.2,
          specWindowsAfter_cons_new _ hd _ doc docs hsorted hgt]
        dsimp only
        have hfirst : specReport x config w.stats (doc :: docs) w.timeStart
            = x.MakeReport config w.timeStart w.timeEnd none
              (createResult x w.stats (toInt64 (interval config)) config.ExampleQueries) := by
          have hnil : specWindowDocs (duration config) w.timeStart (doc :: docs) = [] := by
            unfold specWindowDocs
            rw [List.filter_eq_nil_iff]
            intro b hb
            have hb' : doc.Ts ≤ b.Ts := by
              rcases List.mem_cons.mp hb with rfl | hb
              · exact le_refl _
              · exact (List.pairwise_cons.mp hsorted).1 b hb
            have := Truncate_mono _ _ _ hd hb'
            simp only [decide_eq_true_eq]
            intro he
            rw [he] at this
            linarith
          unfold specReport
          rw [hnil, hend]
          rfl
        simp only [if_neg (List.cons_ne_nil _ _)]
        rw [hfirst]
        by_cases hL : specWindowsAfter (duration config) (Truncate doc.Ts (duration config)) docs
            = []
        · rw [if_pos hL, hL]
          simp
        · rw [if_neg hL, List.dropLast_cons_of_ne_nil hL, List.map_cons,
            specReport_cons_eq x config [] doc docs _ rfl,
            hmapne _ (fun t ht => ne_of_lt
              (specWindowsAfter_mem _ _ t docs (List.mem_of_mem_dropLast ht)).1)]


theorem specNonEmptyWindows_filter (d : Duration) (docs : List (SystemProfile P))
    (q : SystemProfile P → Bool) (p : Time → Bool)
    (h : ∀ doc ∈ docs, q doc = p (Truncate doc.Ts d)) :
    specNonEmptyWindows d (docs.filter q)
      = (((docs.map (fun doc => Truncate doc.Ts d)).toFinset).filter (fun t => p t = true)).card := by
  unfold specNonEmptyWindows
  rw [← List.card_toFinset, ← List.toFinset_filter, List.filter_map]
  have hq : docs.filter q = docs.filter (p ∘ fun doc => Truncate doc.Ts d) :=
    List.filter_congr (fun doc hdoc => h doc hdoc)
  rw [hq]

/-- For every positive duration and every sequence of documents, sorted or
not, the reports of a run of `start` are at most as many as the distinct
windows of the specification that hold a document. -/
theorem start_reports_le_windows (x : Deps P K S R) (config : QAN) (now : Time)
    (docs : List (SystemProfile P)) (hd : 0 < duration config) :
    (start x config now (feed docs)).reports.length
      ≤ specNonEmptyWindows (duration config) docs := by
  have h := start_loop_reports_le x config hd docs (start_init config now : Worker K S) rfl
  refine le_trans h ?_
  unfold specNonEmptyWindows
  rw [← List.card_toFinset]
  exact Finset.card_le_card (Finset.filter_subset _ _)

end WorkerLemmas

/-! ## Lemmas on the controller -/

theorem mergeStatus_some (l : List (String × String)) :
    ∀ m : List (String × String),
      mergeStatus (some m) l = Except.ok (some (l.foldl (fun m kv => mapSet m kv.1 kv.2) m)) := by
  induction l with
  | nil => intro m; rfl
  | cons e l ih =>
    intro m
    obtain ⟨k, v⟩ := e
    simp only [mergeStatus, List.foldl_cons]
    exact ih _

theorem mapGet_none_of_not_mem {V : Type} (m : List (String × V)) (k : String)
    (h : k ∉ m.map Prod.fst) : mapGet m k = none := by
  induction m with
  | nil => rfl
  | cons e m ih =>
    obtain ⟨k0, v0⟩ := e
    simp only [List.map_cons, List.mem_cons, not_or] at h
    simp only [mapGet, if_neg (Ne.symm h.1)]
    exact ih h.2

/-- Merging a snapshot with distinct keys: a key of the snapshot takes the
value of the snapshot, any other key keeps its value. -/
theorem mapGet_merge (l : List (String × String)) (hl : (l.map Prod.fst).Nodup) :
    ∀ (m : List (String × String)) (k : String),
      (∀ v, mapGet l k = some v →
        mapGet (l.foldl (fun m kv => mapSet m kv.1 kv.2) m) k = some v) ∧
      (mapGet l k = none →
        mapGet (l.foldl (fun m kv => mapSet m kv.1 kv.2) m) k = mapGet m k) := by
  induction l with
  | nil =>
    intro m k
    simp [mapGet]
  | cons e l ih =>
    intro m k
    obtain ⟨k0, v0⟩ := e
    simp only [List.map_cons, List.nodup_cons] at hl
    obtain ⟨h1, h2⟩ := ih hl.2 (mapSet m k0 v0) k
    simp only [List.foldl_cons]
    by_cases hk : k0 = k
    · subst hk
      have hnone := mapGet_none_of_not_mem l k0 hl.1
      have hget : mapGet ((k0, v0) :: l) k0 = some v0 := by simp [mapGet]
      rw [hget]
      refine ⟨fun v hv => ?_, fun hf => by cases hf⟩
      rw [h2 hnone, mapGet_mapSet_self]
      exact hv
    · simp only [mapGet, if_neg hk]
      refine ⟨h1, fun hn => ?_⟩
      rw [h2 hn, mapGet_mapSet_ne m k0 k v0 hk]

theorem New_consistent (docsChan : Nat) (config : QAN) :
    Parser.consistent (New docsChan config) := by
  constructor
  · intro h
    simp [New] at h
  · intro _
    rfl

theorem Start_running (rt : Runtime) (h : rt.self.running = true) :
    Parser.Start rt = ((rt.self.reportChan, none), rt) := by
  simp [Parser.Start, h]

theorem Start_consistent (rt : Runtime) (h : Parser.consistent rt) :
    Parser.consistent (Parser.Start rt).2 ∧ (Parser.Start rt).2.self.running = true := by
  cases hr : rt.self.running with
  | true =>
    rw [Start_running rt hr]
    exact ⟨h, hr⟩
  | false =>
    have hw := h.2 hr
    simp only [Parser.Start, hr, Bool.false_eq_true, if_false, and_true]
    constructor
    · intro _
      exact ⟨⟨[], rfl⟩, ⟨_, by rw [hw], rfl⟩⟩
    · intro hf
      simp at hf

theorem Stop_consistent (rt : Runtime) (h : Parser.consistent rt) :
    Parser.consistent (Parser.Stop rt) ∧ (Parser.Stop rt).self.running = false := by
  cases hr : rt.self.running with
  | false =>
    have : Parser.Stop rt = rt := by simp [Parser.Stop, hr]
    rw [this]
    exact ⟨h, hr⟩
  | true =>
    obtain ⟨_, g, hg, hwg⟩ := h.1 hr
    simp only [Parser.Stop, hr, Bool.not_true, Bool.false_eq_true, if_false, and_true]
    constructor
    · intro hf
      simp at hf
    · intro _
      simp [hg, hwg]

/-- `Status` on a consistent controller does not panic; it returns `nil` when
the controller is not running and the merged table when it is. -/
theorem Status_consistent (StatusToMap : status → List (String × String)) (rt : Runtime)
    (pong : Option status) (h : Parser.consistent rt) :
    (rt.self.running = false ∧ Parser.Status StatusToMap rt pong = Except.ok (none, rt)) ∨
    (rt.self.running = true ∧ ∃ old, rt.self.status = some old ∧
      Parser.Status StatusToMap rt pong = Except.ok
        (some (((Parser.recvPong StatusToMap pong).getD []).foldl
            (fun m kv => mapSet m kv.1 kv.2) old),
          { rt with self := { rt.self with
              status := some (((Parser.recvPong StatusToMap pong).getD []).foldl
                (fun m kv => mapSet m kv.1 kv.2) old) } })) := by
  cases hr : rt.self.running with
  | false =>
    left
    simp [Parser.Status, Parser.Running, hr]
  | true =>
    right
    obtain ⟨⟨old, hold⟩, _⟩ := h.1 hr
    refine ⟨rfl, old, hold, ?_⟩
    simp only [Parser.Status, Parser.Running, hr, Bool.not_true, Bool.false_eq_true, if_false,
      hold, mergeStatus_some]

theorem call_consistent (StatusToMap : status → List (String × String)) (rt : Runtime)
    (c : Call) (h : Parser.consistent rt) :
    ∃ rt1, Parser.call StatusToMap rt c = Except.ok rt1 ∧ Parser.consistent rt1 := by
  cases c with
  | Start => exact ⟨_, rfl, (Start_consistent rt h).1⟩
  | Stop => exact ⟨_, rfl, (Stop_consistent rt h).1⟩
  | Status pong =>
    rcases Status_consistent StatusToMap rt pong h with ⟨_, hs⟩ | ⟨hr, old, hold, hs⟩
    · exact ⟨rt, by simp [Parser.call, hs], h⟩
    · refine ⟨_, by simp only [Parser.call, hs]; rfl, ?_⟩
      obtain ⟨_, hg⟩ := h.1 hr
      constructor
      · intro _
        exact ⟨⟨_, rfl⟩, hg⟩
      · intro hf
        exact h.2 hf

theorem calls_consistent (StatusToMap : status → List (String × String)) (cs : List Call) :
    ∀ rt, Parser.consistent rt →
      ∃ rt1, Parser.calls StatusToMap rt cs = Except.ok rt1 ∧ Parser.consistent rt1 := by
  induction cs with
  | nil => intro rt h; exact ⟨rt, rfl, h⟩
  | cons c cs ih =>
    intro rt h
    obtain ⟨rt1, h1, hc1⟩ := call_consistent StatusToMap rt c h
    obtain ⟨rt2, h2, hc2⟩ := ih rt1 hc1
    exact ⟨rt2, by simp only [Parser.calls, h1, h2], hc2⟩

/-! ## The claims on the worker -/

section WorkerClaims

variable {P K S R : Type}

/-- C1 (the code at the boundary): a document stamped exactly at the end of
the current window is not flushed: no report is sent, the window stays, and
the document is counted and classified into the accumulator of the window
that ends at its timestamp. -/
theorem C1_document_at_window_end_is_accumulated (x : Deps P K S R) (config : QAN)
    (stats : List (K × S)) (T : Time) (len : Nat) (st : status) (fields : P) (sent : Bool) :
    (start_step x config ⟨stats, T, T + len, st⟩ (Event.doc ⟨T + len, fields⟩ sent)).reports = [] ∧
    ∃ w1, (start_step x config ⟨stats, T, T + len, st⟩ (Event.doc ⟨T + len, fields⟩ sent)).next
        = some w1 ∧
      w1.timeStart = T ∧ w1.timeEnd = T + len ∧
      w1.stats = (x.ProcessDoc ⟨T + len, fields⟩ [] stats).1 ∧
      w1.status.InDocs = st.InDocs + 1 ∧ w1.status.OutReports = st.OutReports := by
  have h := start_step_inside x config ⟨stats, T, T + len, st⟩ ⟨T + len, fields⟩ sent
    (by simp) (le_refl _)
  rw [h]
  refine ⟨rfl, _, rfl, ?_⟩
  refine ⟨rfl, rfl, rfl, ?_, ?_⟩
  · simp only [start_process]
    split <;> rfl
  · simp only [start_process]
    split <;> rfl

/-- C4: a document stamped before the start of the current window sends no
report and leaves the worker (accumulator, window, status) as it was; the
rest of the run is the run without that document. -/
theorem C4_late_document_dropped (x : Deps P K S R) (config : QAN) (w : Worker K S)
    (doc : SystemProfile P) (sent : Bool) (es : List (Event P))
    (hlate : doc.Ts < w.timeStart) :
    start_step x config w (Event.doc doc sent) = { next := some w, reports := [], pongs := [] } ∧
    start_loop x config w (Event.doc doc sent :: es) = start_loop x config w es := by
  have h := start_step_late x config w doc sent hlate
  refine ⟨h, ?_⟩
  rw [start_loop_cons_some x config w w (Event.doc doc sent) es (by rw [h]), h]
  simp

/-- C4 on an explicit run: a document at 10s under the window from 60s to
120s. -/
theorem C4_late_document_dropped_witness :
    start_step demo demoConfig ⟨[], 60 * Second, 120 * Second, demoStatus⟩
        (Event.doc (demoDoc 10 "find") true)
      = { next := some ⟨[], 60 * Second, 120 * Second, demoStatus⟩, reports := [], pongs := [] } ∧
    start_loop demo demoConfig ⟨[], 60 * Second, 120 * Second, demoStatus⟩
        (Event.doc (demoDoc 10 "find") true :: [Event.doc (demoDoc 70 "find") true])
      = start_loop demo demoConfig ⟨[], 60 * Second, 120 * Second, demoStatus⟩
        [Event.doc (demoDoc 70 "find") true] :=
  C4_late_document_dropped demo demoConfig ⟨[], 60 * Second, 120 * Second, demoStatus⟩
    (demoDoc 10 "find") true [Event.doc (demoDoc 70 "find") true] (by decide)

/-- C5: under a window from `T` to `T + d` with an empty accumulator,
documents stamped inside the window followed by one stamped after `T + d`
send nothing until the last document arrives and then exactly one report,
with bounds `T` and `T + d` and the result of `createResult` on the
accumulator folded from the in-window documents; afterwards the window is the
one of the last timestamp truncated to `d` and the accumulator holds the last
document alone, classified from an empty accumulator. -/
theorem C5_one_report_per_rollover (x : Deps P K S R) (config : QAN) (T : Time) (st : status)
    (docs : List (SystemProfile P)) (last : SystemProfile P)
    (hd : 0 < duration config)
    (hin : ∀ doc ∈ docs, T ≤ doc.Ts ∧ doc.Ts < T + duration config)
    (hlast : T + duration config < last.Ts) :
    (start_loop x config ⟨[], T, T + duration config, st⟩ (feed docs)).reports = [] ∧
    (start_loop x config ⟨[], T, T + duration config, st⟩ (feed (docs ++ [last]))).reports
      = [x.MakeReport config T (T + duration config) none
          (createResult x (docs.foldl (fun s doc => (x.ProcessDoc doc [] s).1) [])
            (toInt64 (interval config)) config.ExampleQueries)] ∧
    ∃ w2, (start_loop x config ⟨[], T, T + duration config, st⟩ (feed (docs ++ [last]))).next
        = some w2 ∧
      w2.stats = (x.ProcessDoc last [] []).1 ∧
      w2.timeStart = Truncate last.Ts (duration config) ∧
      w2.timeEnd = Truncate last.Ts (duration config) + duration config := by
  have h1 := start_loop_inside x config docs ⟨[], T, T + duration config, st⟩
    (fun doc hm => ⟨(hin doc hm).1, le_of_lt (hin doc hm).2⟩)
  obtain ⟨f1, f2, f3⟩ := foldl_start_process x docs (⟨[], T, T + duration config, st⟩ : Worker K S)
  simp only at f1 f2 f3
  have hroll := start_step_rollover x config
    (docs.foldl (start_process x) ⟨[], T, T + duration config, st⟩) last
    (by rw [f1]; have : T < last.Ts := lt_trans (by linarith) hlast
        exact le_of_lt this)
    (by rw [f2]; exact hlast)
  have happ := start_loop_append x config (feed docs) [Event.doc last true]
    ⟨[], T, T + duration config, st⟩ _ (by rw [h1])
  have hfeed : feed (docs ++ [last]) = feed docs ++ [Event.doc last true] := by
    simp [feed]
  have hone : start_loop x config (docs.foldl (start_process x) ⟨[], T, T + duration config, st⟩)
      [Event.doc last true] = start_step x config
        (docs.foldl (start_process x) ⟨[], T, T + duration config, st⟩) (Event.doc last true) := by
    rw [start_loop_cons_some x config _ _ _ [] (by rw [hroll]), start_loop_nil]
    simp [hroll]
  rw [hfeed, happ, hone, hroll, h1, f1, f2, f3]
  refine ⟨rfl, by simp, _, rfl, ?_⟩
  refine ⟨?_, ?_, ?_⟩
  · rw [(start_process_window x _ last).2.2]
  · rw [(start_process_window x _ last).1]
  · rw [(start_process_window x _ last).2.1]

/-- C5 on the scenario of the specification: interval 60s, `T` = 120s,
documents at `T + 5s`, `T + 30s` and `T + 65s`. -/
theorem C5_one_report_per_rollover_witness :
    (start_loop demo demoConfig ⟨[], 120 * Second, 120 * Second + duration demoConfig, demoStatus⟩
      (feed [demoDoc 125 "find", demoDoc 150 "find"])).reports = [] ∧
    (start_loop demo demoConfig ⟨[], 120 * Second, 120 * Second + duration demoConfig, demoStatus⟩
      (feed ([demoDoc 125 "find", demoDoc 150 "find"] ++ [demoDoc 185 "find"]))).reports
      = [demo.MakeReport demoConfig (120 * Second) (120 * Second + duration demoConfig) none
          (createResult demo
            ([demoDoc 125 "find", demoDoc 150 "find"].foldl
              (fun s doc => (demo.ProcessDoc doc [] s).1) [])
            (toInt64 (interval demoConfig)) demoConfig.ExampleQueries)] ∧
    ∃ w2, (start_loop demo demoConfig
        ⟨[], 120 * Second, 120 * Second + duration demoConfig, demoStatus⟩
        (feed ([demoDoc 125 "find", demoDoc 150 "find"] ++ [demoDoc 185 "find"]))).next
        = some w2 ∧
      w2.stats = (demo.ProcessDoc (demoDoc 185 "find") [] []).1 ∧
      w2.timeStart = Truncate (demoDoc 185 "find").Ts (duration demoConfig) ∧
      w2.timeEnd = Truncate (demoDoc 185 "find").Ts (duration demoConfig) + duration demoConfig :=
  C5_one_report_per_rollover demo demoConfig (120 * Second) demoStatus
    [demoDoc 125 "find", demoDoc 150 "find"] (demoDoc 185 "find")
    (by decide)
    (by
      intro doc hm
      simp only [List.mem_cons, List.mem_singleton, List.not_mem_nil, or_false] at hm
      rcases hm with rfl | rfl <;> decide)
    (by decide)

/-- C6 (as stated, refuted): a document stamped after the end of the window,
whose report is taken, is counted as documents-in and as ok, and the
reports-out counter, which is neither of the two, changes from 0 to 1. -/
theorem C6_reports_out_changes :
    ∃ w1, (start_step demo demoConfig ⟨[], 60 * Second, 120 * Second, demoStatus⟩
        (Event.doc (demoDoc 200 "find") true)).next = some w1 ∧
      w1.status.InDocs = demoStatus.InDocs + 1 ∧
      w1.status.OkDocs = demoStatus.OkDocs + 1 ∧
      demoStatus.OutReports = 0 ∧ w1.status.OutReports = 1 := by
  have h := start_step_rollover demo demoConfig ⟨[], 60 * Second, 120 * Second, demoStatus⟩
    (demoDoc 200 "find") (by decide) (by decide)
  rw [h]
  exact ⟨_, rfl, rfl, rfl, rfl, rfl⟩

/-- C6 (amended): a document that is not late and whose flush, if any, is not
aborted raises documents-in by 1 and exactly one outcome counter by 1, chosen
by the result of the classifier on the accumulator it is classified into (the
current one, or the empty one after a flush), the other outcome counters
staying as they were; reports-out rises by 1 exactly when the document causes
a flush.  Hence in every run of `start` documents-in is the sum of the four
outcome counters, and no step lowers a counter. -/
theorem C6_counters (x : Deps P K S R) (config : QAN) (w : Worker K S)
    (doc : SystemProfile P) (sent : Bool)
    (hnotlate : w.timeStart ≤ doc.Ts) (hflush : w.timeEnd < doc.Ts → sent = true) :
    (∃ w1, (start_step x config w (Event.doc doc sent)).next = some w1 ∧
      w1.status.InDocs = w.status.InDocs + 1 ∧
      w1.status.OutReports = w.status.OutReports + (if w.timeEnd < doc.Ts then 1 else 0) ∧
      ((x.ProcessDoc doc [] (if w.timeEnd < doc.Ts then [] else w.stats)).2 = none →
        w1.status.OkDocs = w.status.OkDocs + 1 ∧
        w1.status.SkippedDocs = w.status.SkippedDocs ∧
        w1.status.ErrFingerprint = w.status.ErrFingerprint ∧
        w1.status.ErrParse = w.status.ErrParse) ∧
      ((x.ProcessDoc doc [] (if w.timeEnd < doc.Ts then [] else w.stats)).2
            = some DocError.ErrNoQuery ∨
          (x.ProcessDoc doc [] (if w.timeEnd < doc.Ts then [] else w.stats)).2
            = some DocError.ErrQueryFiltered →
        w1.status.OkDocs = w.status.OkDocs ∧
        w1.status.SkippedDocs = w.status.SkippedDocs + 1 ∧
        w1.status.ErrFingerprint = w.status.ErrFingerprint ∧
        w1.status.ErrParse = w.status.ErrParse) ∧
      ((x.ProcessDoc doc [] (if w.timeEnd < doc.Ts then [] else w.stats)).2
            = some DocError.ErrFingerprint →
        w1.status.OkDocs = w.status.OkDocs ∧
        w1.status.SkippedDocs = w.status.SkippedDocs ∧
        w1.status.ErrFingerprint = w.status.ErrFingerprint + 1 ∧
        w1.status.ErrParse = w.status.ErrParse) ∧
      (∀ msg, (x.ProcessDoc doc [] (if w.timeEnd < doc.Ts then [] else w.stats)).2
            = some (DocError.other msg) →
        w1.status.OkDocs = w.status.OkDocs ∧
        w1.status.SkippedDocs = w.status.SkippedDocs ∧
        w1.status.ErrFingerprint = w.status.ErrFingerprint ∧
        w1.status.ErrParse = w.status.ErrParse + 1)) ∧
    (∀ (now : Time) (es : List (Event P)) (w2 : Worker K S),
      (start x config now es).next = some w2 →
      w2.status.InDocs = w2.status.OkDocs + w2.status.SkippedDocs + w2.status.ErrFingerprint
        + w2.status.ErrParse) ∧
    (∀ (w0 w2 : Worker K S) (e : Event P), (start_step x config w0 e).next = some w2 →
      w0.status.InDocs ≤ w2.status.InDocs ∧ w0.status.OkDocs ≤ w2.status.OkDocs ∧
      w0.status.OutReports ≤ w2.status.OutReports ∧
      w0.status.SkippedDocs ≤ w2.status.SkippedDocs ∧
      w0.status.ErrFingerprint ≤ w2.status.ErrFingerprint ∧
      w0.status.ErrParse ≤ w2.status.ErrParse) := by
  refine ⟨?_, ?_, ?_⟩
  · by_cases hroll : w.timeEnd < doc.Ts
    · have hs := hflush hroll
      subst hs
      rw [start_step_rollover x config w doc hnotlate hroll]
      simp only [if_pos hroll]
      exact ⟨_, rfl, start_process_counters x _ doc⟩
    · rw [start_step_inside x config w doc sent hnotlate (not_lt.mp hroll)]
      simp only [if_neg hroll, Nat.add_zero]
      exact ⟨_, rfl, start_process_counters x w doc⟩
  · intro now es w2 h
    exact start_loop_invariant x config
      (fun v => v.status.InDocs = v.status.OkDocs + v.status.SkippedDocs
        + v.status.ErrFingerprint + v.status.ErrParse)
      (fun v e v1 hv hstep => (start_step_counters x config v v1 e hstep).1 hv)
      es (start_init config now) w2 rfl h
  · intro w0 w2 e h
    exact (start_step_counters x config w0 w2 e h).2

/-- C6 on an explicit step: a document at 70s that classifies with a
fingerprint error, under the window from 60s to 120s. -/
theorem C6_counters_witness :
    ∃ w1, (start_step demo demoConfig ⟨[], 60 * Second, 120 * Second, demoStatus⟩
        (Event.doc ⟨70 * Second, (some DocError.ErrFingerprint, "find")⟩ false)).next = some w1 ∧
      w1.status.InDocs = 1 ∧ w1.status.ErrFingerprint = 1 ∧ w1.status.OkDocs = 0 ∧
      w1.status.OutReports = 0 := by
  obtain ⟨w1, h, hin, hout, _, _, hfp, _⟩ :=
    (C6_counters demo demoConfig ⟨[], 60 * Second, 120 * Second, demoStatus⟩
      ⟨70 * Second, (some DocError.ErrFingerprint, "find")⟩ false (by decide)
      (fun h => absurd h (by decide))).1
  have hfp := hfp rfl
  exact ⟨w1, h, hin, hfp.2.2.1, hfp.1, hout⟩

/-- C3 (as stated, refuted): with an interval of 9223372037 seconds, which is
at least 1 second, the duration wraps to a negative `int64`: the window the
worker starts with ends before it starts, and its end is not its start plus
the interval. -/
theorem C3_interval_overflow :
    1 ≤ interval ⟨9223372037, false⟩ ∧
    (start_init ⟨9223372037, false⟩ 0 : Worker Unit Unit).timeEnd
      < (start_init ⟨9223372037, false⟩ 0 : Worker Unit Unit).timeStart ∧
    (start_init ⟨9223372037, false⟩ 0 : Worker Unit Unit).timeEnd
      ≠ (start_init ⟨9223372037, false⟩ 0 : Worker Unit Unit).timeStart
        + 9223372037 * Second := by
  decide

/-- C3 (amended): for every interval whose nanoseconds fit an `int64` (the
default 60 standing for 0), in every run of `start` the window has its start
at a multiple of the interval and its end at the start plus the interval, at
start-up and after every step; a step either keeps the window or moves its
start to the previous end or later, hence after the previous start; and a
document stamped after the end of the window, whose report is taken, moves
the window so. -/
theorem C3_windows_aligned_increasing (x : Deps P K S R) (config : QAN) (now : Time)
    (hfit : (interval config : Int) * Second < 9223372036854775808) :
    (∀ (es : List (Event P)) (w : Worker K S), (start x config now es).next = some w →
      w.timeStart % ((interval config : Int) * Second) = 0 ∧
      w.timeEnd = w.timeStart + (interval config : Int) * Second) ∧
    (∀ (es : List (Event P)) (w w1 : Worker K S) (e : Event P),
      (start x config now es).next = some w → (start_step x config w e).next = some w1 →
      (w1.timeStart = w.timeStart ∧ w1.timeEnd = w.timeEnd) ∨
        (w.timeEnd ≤ w1.timeStart ∧ w.timeStart < w1.timeStart)) ∧
    (∀ (es : List (Event P)) (w : Worker K S) (doc : SystemProfile P),
      (start x config now es).next = some w → w.timeEnd < doc.Ts →
      ∃ w1, (start_step x config w (Event.doc doc true)).next = some w1 ∧
        w1.timeStart = Truncate doc.Ts ((interval config : Int) * Second) ∧
        w.timeEnd ≤ w1.timeStart ∧ w.timeStart < w1.timeStart) := by
  obtain ⟨hdur, hd⟩ := duration_eq config hfit
  rw [← hdur]
  have hreach : ∀ (es : List (Event P)) (w : Worker K S), (start x config now es).next = some w →
      w.timeStart % duration config = 0 ∧ w.timeEnd = w.timeStart + duration config := by
    intro es w h
    exact start_loop_invariant x config
      (fun v => v.timeStart % duration config = 0 ∧ v.timeEnd = v.timeStart + duration config)
      (fun v e v1 hv hstep => (start_step_window x config v v1 e hd hv.1 hv.2 hstep).1)
      es (start_init config now) w (start_init_window config now hd) h
  refine ⟨hreach, ?_, ?_⟩
  · intro es w w1 e h hstep
    obtain ⟨hal, hend⟩ := hreach es w h
    exact (start_step_window x config w w1 e hd hal hend hstep).2
  · intro es w doc h hafter
    obtain ⟨hal, hend⟩ := hreach es w h
    have hle : w.timeStart ≤ doc.Ts := by linarith
    have hs := start_step_rollover x config w doc hle hafter
    have hge := Truncate_ge_aligned doc.Ts w.timeEnd (duration config) hd
      (by rw [hend, Int.add_emod, hal]; simp) hafter
    rw [hs]
    refine ⟨_, rfl, ?_, ?_, ?_⟩
    · rw [(start_process_window x _ doc).1]
    · rw [(start_process_window x _ doc).1]
      dsimp only
      exact hge
    · rw [(start_process_window x _ doc).1]
      dsimp only
      linarith

/-- C3 on an explicit run: interval 60s, started at the zero time, documents
at 65s and 200s. -/
theorem C3_windows_aligned_increasing_witness :
    (∀ (es : List (Event (Option DocError × String))) (w : Worker String (String × Nat)),
      (start demo demoConfig 0 es).next = some w →
      w.timeStart % ((interval demoConfig : Int) * Second) = 0 ∧
      w.timeEnd = w.timeStart + (interval demoConfig : Int) * Second) ∧
    (start demo demoConfig 0 (feed [demoDoc 65 "find", demoDoc 200 "find"])).next.map
      (fun w => (w.timeStart, w.timeEnd)) = some (180 * Second, 240 * Second) :=
  ⟨(C3_windows_aligned_increasing demo demoConfig 0 (by decide)).1, by decide⟩

/-- C2 (as stated, refuted): started at the zero time with a 60s interval,
two documents at 65s and 70s lie in one window and no report is sent, so the
reports are fewer than the non-empty windows; and a single document at 200s
makes the worker send a report for the window from 60s to 120s, built from the
empty accumulator: a report for a window in which no document was
accumulated. -/
theorem C2_reports_are_not_the_nonempty_windows :
    ((start demo demoConfig 0 (feed [demoDoc 65 "find", demoDoc 70 "find"])).reports.length = 0 ∧
      specNonEmptyWindows (duration demoConfig) [demoDoc 65 "find", demoDoc 70 "find"] = 1) ∧
    (start demo demoConfig 0 (feed [demoDoc 200 "find"])).reports
      = [demo.MakeReport demoConfig (60 * Second) (120 * Second) none
          (createResult demo [] (toInt64 (interval demoConfig)) demoConfig.ExampleQueries)] := by
  refine ⟨⟨by decide, by decide⟩, ?_⟩
  have h := start_step_rollover demo demoConfig (start_init demoConfig 0) (demoDoc 200 "find")
    (by decide) (by decide)
  have hn : (start_step demo demoConfig (start_init demoConfig 0)
      (Event.doc (demoDoc 200 "find") true)).next = some (start_process demo
        { stats := [], timeStart := Truncate (demoDoc 200 "find").Ts (duration demoConfig)
          timeEnd := Truncate (demoDoc 200 "find").Ts (duration demoConfig) + duration demoConfig
          status := { (start_init demoConfig 0 : Worker String (String × Nat)).status with
            OutReports := (start_init demoConfig 0 : Worker String (String × Nat)).status.OutReports
              + 1 } }
        (demoDoc 200 "find")) := by rw [h]
  show (start_loop demo demoConfig (start_init demoConfig 0)
    [Event.doc (demoDoc 200 "find") true]).reports = _
  rw [start_loop_cons_some demo demoConfig _ _ _ [] hn, h]
  simp only [start_loop_nil, List.append_nil, List.cons.injEq, and_true]
  have e1 : (start_init demoConfig 0 : Worker String (String × Nat)).timeStart = 60 * Second := by
    decide
  have e2 : (start_init demoConfig 0 : Worker String (String × Nat)).timeEnd = 120 * Second := by
    decide
  rw [e1, e2]
  rfl

/-- C2 (amended): for every interval whose duration `d` is positive and every
sequence of documents with non-decreasing timestamps, none stamped at a
multiple of `d`, every report being taken: the reports sent are, in order,
the reports of the windows the worker has held but the last: the initial
window, from `Truncate now d + d`, then every distinct window after it that
holds a document; each report has the bounds of its window and the result of
`createResult` on the accumulator of exactly the documents of that window.
Every window after the initial one that is reported holds a document.  The
number of reports is the number of distinct windows holding a document
stamped at or after the end of the initial window; it is one less than the
number of distinct windows holding a document not before the initial window
when a document lies in the initial window, and equal to it otherwise. -/
theorem C2_reports_are_the_windows_held (x : Deps P K S R) (config : QAN) (now : Time)
    (docs : List (SystemProfile P)) (hd : 0 < duration config)
    (hsorted : docs.Pairwise (fun a b => a.Ts ≤ b.Ts))
    (hoff : ∀ doc ∈ docs, doc.Ts % duration config ≠ 0) :
    (start x config now (feed docs)).reports
      = ((Truncate now (duration config) + duration config)
          :: specWindowsAfter (duration config)
              (Truncate now (duration config) + duration config) docs).dropLast.map
        (specReport x config [] docs) ∧
    (∀ t ∈ specWindowsAfter (duration config)
        (Truncate now (duration config) + duration config) docs,
      specWindowDocs (duration config) t docs ≠ []) ∧
    (start x config now (feed docs)).reports.length
      = specNonEmptyWindows (duration config)
          (docs.filter (fun doc =>
            decide (Truncate now (duration config) + duration config + duration config
              ≤ doc.Ts))) ∧
    ((∃ doc ∈ docs, Truncate now (duration config) + duration config ≤ doc.Ts ∧
        doc.Ts < Truncate now (duration config) + duration config + duration config) →
      (start x config now (feed docs)).reports.length + 1
        = specNonEmptyWindows (duration config)
            (docs.filter (fun doc =>
              decide (Truncate now (duration config) + duration config ≤ doc.Ts)))) ∧
    ((∀ doc ∈ docs, ¬ (Truncate now (duration config) + duration config ≤ doc.Ts ∧
        doc.Ts < Truncate now (duration config) + duration config + duration config)) →
      (start x config now (feed docs)).reports.length
        = specNonEmptyWindows (duration config)
            (docs.filter (fun doc =>
              decide (Truncate now (duration config) + duration config ≤ doc.Ts)))) := by
  have hal : (Truncate now (duration config) + duration config) % duration config = 0 := by
    rw [Int.add_emod, Truncate_emod now _ hd]
    simp
  have hrep := start_loop_reports_eq x config hd docs (start_init config now : Worker K S)
    hal rfl hsorted hoff
  have h1 : (start x config now (feed docs)).reports
      = ((Truncate now (duration config) + duration config)
          :: specWindowsAfter (duration config)
              (Truncate now (duration config) + duration config) docs).dropLast.map
        (specReport x config [] docs) := by
    show (start_loop x config (start_init config now) (feed docs)).reports = _
    rw [hrep]
    show (if specWindowsAfter (duration config)
        (Truncate now (duration config) + duration config) docs = [] then []
      else specReport x config [] docs (Truncate now (duration config) + duration config) ::
        (specWindowsAfter (duration config)
          (Truncate now (duration config) + duration config) docs).dropLast.map
            (specReport x config [] docs)) = _
    by_cases hL : specWindowsAfter (duration config)
        (Truncate now (duration config) + duration config) docs = []
    · rw [if_pos hL, hL]
      rfl
    · rw [if_neg hL, List.dropLast_cons_of_ne_nil hL, List.map_cons]
  have hlen : (start x config now (feed docs)).reports.length
      = (((docs.map (fun doc => Truncate doc.Ts (duration config))).toFinset).filter
          (fun t => Truncate now (duration config) + duration config < t)).card := by
    rw [h1, List.length_map, List.length_dropLast, List.length_cons, Nat.add_sub_cancel]
    unfold specWindowsAfter
    rw [← List.card_toFinset, List.toFinset_filter]
    simp only [decide_eq_true_eq]
  have hafter := specNonEmptyWindows_filter (duration config) docs
    (fun doc => decide (Truncate now (duration config) + duration config + duration config
      ≤ doc.Ts))
    (fun t => decide (Truncate now (duration config) + duration config < t))
    (fun doc _ => by
      simp only [decide_eq_decide]
      exact (lt_Truncate_iff doc.Ts _ _ hd hal).symm)
  have hkept := specNonEmptyWindows_filter (duration config) docs
    (fun doc => decide (Truncate now (duration config) + duration config ≤ doc.Ts))
    (fun t => decide (Truncate now (duration config) + duration config ≤ t))
    (fun doc _ => by
      simp only [decide_eq_decide]
      exact (le_Truncate_iff doc.Ts _ _ hd hal).symm)
  simp only [decide_eq_true_eq] at hafter hkept
  refine ⟨h1, ?_, ?_, ?_, ?_⟩
  · intro t ht
    obtain ⟨_, doc, hm, he⟩ := specWindowsAfter_mem _ _ t docs ht
    intro hnil
    have : doc ∈ specWindowDocs (duration config) t docs := by
      unfold specWindowDocs
      rw [List.mem_filter]
      exact ⟨hm, by simpa using he⟩
    rw [hnil] at this
    cases this
  · rw [hlen, hafter]
  · rintro ⟨doc, hm, hlo, hhi⟩
    rw [hlen, hkept]
    have hmem : Truncate now (duration config) + duration config
        ∈ (docs.map (fun doc => Truncate doc.Ts (duration config))).toFinset := by
      rw [List.mem_toFinset, List.mem_map]
      exact ⟨doc, hm, Truncate_eq_of_window _ _ _ hd hal hlo hhi⟩
    have hins : ((docs.map (fun doc => Truncate doc.Ts (duration config))).toFinset).filter
          (fun t => Truncate now (duration config) + duration config ≤ t)
        = insert (Truncate now (duration config) + duration config)
          (((docs.map (fun doc => Truncate doc.Ts (duration config))).toFinset).filter
            (fun t => Truncate now (duration config) + duration config < t)) := by
      ext t
      simp only [Finset.mem_filter, Finset.mem_insert]
      constructor
      · rintro ⟨ht, hle⟩
        rcases eq_or_lt_of_le hle with h | h
        · exact Or.inl h.symm
        · exact Or.inr ⟨ht, h⟩
      · rintro (h | ⟨ht, hlt⟩)
        · rw [h]
          exact ⟨hmem, le_refl _⟩
        · exact ⟨ht, le_of_lt hlt⟩
    rw [hins, Finset.card_insert_of_not_mem (by simp)]
  · intro hnone
    have hEq : ((docs.map (fun doc => Truncate doc.Ts (duration config))).toFinset).filter
          (fun t => Truncate now (duration config) + duration config < t)
        = ((docs.map (fun doc => Truncate doc.Ts (duration config))).toFinset).filter
          (fun t => Truncate now (duration config) + duration config ≤ t) := by
      apply Finset.filter_congr
      intro t ht
      rw [List.mem_toFinset, List.mem_map] at ht
      obtain ⟨doc, hm, he⟩ := ht
      constructor
      · intro hlt
        exact le_of_lt hlt
      · intro hle
        rcases eq_or_lt_of_le hle with h | h
        · exfalso
          apply hnone doc hm
          have hb := Truncate_le doc.Ts (duration config) hd
          rw [he, ← h] at hb
          exact ⟨hb.1, hb.2⟩
        · exact h
    rw [hlen, hkept, hEq]

/-- C2 on an explicit run: interval 60s, started at the zero time, documents
at 65s, 70s and 200s: one report, for the window from 60s to 120s, and two
windows that hold a document. -/
theorem C2_reports_are_the_windows_held_witness :
    (start demo demoConfig 0
        (feed [demoDoc 65 "find", demoDoc 70 "find", demoDoc 200 "find"])).reports
      = ((Truncate 0 (duration demoConfig) + duration demoConfig)
          :: specWindowsAfter (duration demoConfig)
              (Truncate 0 (duration demoConfig) + duration demoConfig)
              [demoDoc 65 "find", demoDoc 70 "find", demoDoc 200 "find"]).dropLast.map
        (specReport demo demoConfig [] [demoDoc 65 "find", demoDoc 70 "find", demoDoc 200 "find"]) ∧
    (start demo demoConfig 0
        (feed [demoDoc 65 "find", demoDoc 70 "find", demoDoc 200 "find"])).reports.length + 1
      = specNonEmptyWindows (duration demoConfig)
          ([demoDoc 65 "find", demoDoc 70 "find", demoDoc 200 "find"].filter (fun doc =>
            decide (Truncate 0 (duration demoConfig) + duration demoConfig ≤ doc.Ts))) ∧
    (start demo demoConfig 0
        (feed [demoDoc 65 "find", demoDoc 70 "find", demoDoc 200 "find"])).reports.length = 1 :=
  ⟨(C2_reports_are_the_windows_held demo demoConfig 0
      [demoDoc 65 "find", demoDoc 70 "find", demoDoc 200 "find"] (by decide) (by decide)
      (by decide)).1,
    (C2_reports_are_the_windows_held demo demoConfig 0
      [demoDoc 65 "find", demoDoc 70 "find", demoDoc 200 "find"] (by decide) (by decide)
      (by decide)).2.2.2.1 ⟨demoDoc 65 "find", by simp, by decide, by decide⟩,
    by decide⟩

end WorkerClaims

/-! ## The claims on the report builder -/

section ResultClaims

variable {P K S R : Type}

/-- C9 (the code against the claim): the `Query_time` metrics of every class
built by `createResult` are the Total, Min, Avg and Max of the summary copied
as they are, with no factor `10^-12`; on a summary with a total of
`3 * 10^12` picoseconds the Sum is `3 * 10^12`, which is not that total
multiplied by `10^-12`. -/
theorem C9_query_time_is_copied_unscaled :
    (∀ (x : Deps P K S R) (stats : List (K × S)) (interval : Int) (exampleQueries : Bool),
      (createResult x stats interval exampleQueries).Class.map
          (fun c => mapGet c.Metrics.TimeMetrics "Query_time")
        = (x.CalcQueryStats (x.ToStatSlice stats) interval).map
          (fun q => some
            { Sum := q.QueryTime.Total, Min := q.QueryTime.Min, Avg := q.QueryTime.Avg,
              Med := 0, P95 := 0, Max := q.QueryTime.Max })) ∧
    (createResult demo [("find", ("find", 2))] 60 false).Class.map
        (fun c => (mapGet c.Metrics.TimeMetrics "Query_time").map TimeStats.Sum)
      = [some 3000000000000] ∧
    (3000000000000 : ℚ) ≠ 3000000000000 * (1 / 1000000000000) := by
  have hgen : ∀ (P K S R : Type) (x : Deps P K S R) (stats : List (K × S)) (interval : Int)
      (exampleQueries : Bool),
      (createResult x stats interval exampleQueries).Class.map
          (fun c => mapGet c.Metrics.TimeMetrics "Query_time")
        = (x.CalcQueryStats (x.ToStatSlice stats) interval).map
          (fun q => some
            { Sum := q.QueryTime.Total, Min := q.QueryTime.Min, Avg := q.QueryTime.Avg,
              Med := 0, P95 := 0, Max := q.QueryTime.Max }) := by
    intro P K S R x stats interval exampleQueries
    rw [(createResult_eq x stats interval exampleQueries).1, List.map_map]
    apply List.map_congr_left
    intro q _
    simp only [Function.comp, createResult_class]
    exact mapGet_mapSet_self _ _ _
  refine ⟨hgen P K S R, ?_, by norm_num⟩
  have h := hgen _ _ _ _ demo [("find", ("find", 2))] 60 false
  have h2 := congrArg (List.map (Option.map TimeStats.Sum)) h
  simp only [List.map_map] at h2
  exact h2

/-- C10: `createResult` returns one class per summary of the reduction, in
the order of the summaries; when the class constructor stores the identifier
and the fingerprint it is given and the counts are counts, each class carries
the identifier, the fingerprint and the count of its summary; its example is
the query text and the total query time of the summary when example capture
is requested, and is left as the constructor made it otherwise, so that,
unless the constructor itself made that very example, the class carries the
example of the summary if and only if example capture is requested; the
global class is the fold of the classes, in order, into the class constructed
empty. -/
theorem C10_one_class_per_summary (x : Deps P K S R) (stats : List (K × S)) (interval : Int)
    (exampleQueries : Bool)
    (hNew : ∀ id fingerprint sample,
      (x.NewClass id fingerprint sample).Id = id ∧
      (x.NewClass id fingerprint sample).Fingerprint = fingerprint)
    (hCount : ∀ q ∈ x.CalcQueryStats (x.ToStatSlice stats) interval,
      0 ≤ q.Count ∧ q.Count < 9223372036854775808) :
    List.Forall₂
      (fun (q : QueryInfoAndCounters) (c : Class) =>
        c.Id = q.ID ∧ c.Fingerprint = q.Fingerprint ∧ (c.TotalQueries : Int) = q.Count ∧
        (exampleQueries = true → c.Example = some ⟨q.QueryTime.Total, q.Query⟩) ∧
        (exampleQueries = false →
          c.Example = (x.NewClass q.ID q.Fingerprint exampleQueries).Example) ∧
        ((x.NewClass q.ID q.Fingerprint false).Example ≠ some ⟨q.QueryTime.Total, q.Query⟩ →
          (c.Example = some ⟨q.QueryTime.Total, q.Query⟩ ↔ exampleQueries = true)))
      (x.CalcQueryStats (x.ToStatSlice stats) interval)
      (createResult x stats interval exampleQueries).Class ∧
    (createResult x stats interval exampleQueries).Global
      = (createResult x stats interval exampleQueries).Class.foldl x.AddClass
          (x.NewClass "" "" false) := by
  obtain ⟨hc, hg⟩ := createResult_eq x stats interval exampleQueries
  rw [hg, hc]
  refine ⟨?_, rfl⟩
  rw [List.forall₂_map_right_iff, List.forall₂_same]
  intro q hq
  obtain ⟨h0, h1⟩ := hCount q hq
  refine ⟨?_, ?_, ?_, ?_, ?_, ?_⟩
  · cases exampleQueries <;> simp [createResult_class, (hNew _ _ _).1]
  · cases exampleQueries <;> simp [createResult_class, (hNew _ _ _).2]
  · simp only [createResult_class]
    exact toUint_eq q.Count h0 h1
  · intro he
    simp [createResult_class, he]
  · intro he
    simp [createResult_class, he]
  · intro hne
    cases exampleQueries with
    | true => simp [createResult_class]
    | false => simpa [createResult_class] using hne

/-- C10 on an explicit accumulator: two queries, with counts 2 and 1. -/
theorem C10_one_class_per_summary_witness :
    (createResult demo [("find", ("find", 2)), ("count", ("count", 1))] 60 true).Class.map
        (fun c => (c.Id, c.TotalQueries))
      = [("find", 2), ("count", 1)] ∧
    (createResult demo [("find", ("find", 2)), ("count", ("count", 1))] 60 true).Global
      = (createResult demo [("find", ("find", 2)), ("count", ("count", 1))] 60 true).Class.foldl
          demo.AddClass (demo.NewClass "" "" false) :=
  ⟨by decide,
    (C10_one_class_per_summary demo [("find", ("find", 2)), ("count", ("count", 1))] 60 true
      (fun _ _ _ => ⟨rfl, rfl⟩)
      (by
        intro q hq
        simp only [demo, List.map_cons, List.map_nil, List.mem_cons, List.mem_singleton,
          List.not_mem_nil, or_false] at hq
        rcases hq with rfl | rfl <;> exact ⟨by decide, by decide⟩)).2⟩

end ResultClaims

/-! ## The claims on the controller -/

/-- C7: `Start` on a running controller returns the report channel it holds
and changes nothing; a second `Start` returns the channel of the first and
changes nothing; and after every sequence of calls on a controller made by
`New` the workers launched and not yet joined are at most one: exactly one
when the controller is running, none when it is not. -/
theorem C7_start_idempotent_one_worker (StatusToMap : status → List (String × String)) :
    (∀ rt : Runtime, rt.self.running = true →
      Parser.Start rt = ((rt.self.reportChan, none), rt)) ∧
    (∀ rt : Runtime,
      Parser.Start (Parser.Start rt).2 = ((Parser.Start rt).1, (Parser.Start rt).2)) ∧
    (∀ (docsChan : Nat) (config : QAN) (cs : List Call),
      ∃ rt, Parser.calls StatusToMap (New docsChan config) cs = Except.ok rt ∧
        rt.workers.length ≤ 1 ∧
        rt.workers.length = (if rt.self.running then 1 else 0)) := by
  refine ⟨Start_running, ?_, ?_⟩
  · intro rt
    cases hr : rt.self.running with
    | true => rw [Start_running rt hr, Start_running rt hr]
    | false =>
      have h1 : (Parser.Start rt).2.self.running = true := by
        simp [Parser.Start, hr]
      rw [Start_running _ h1]
      simp [Parser.Start, hr]
  · intro docsChan config cs
    obtain ⟨rt, h, hc⟩ := calls_consistent StatusToMap cs _ (New_consistent docsChan config)
    refine ⟨rt, h, ?_⟩
    cases hr : rt.self.running with
    | true =>
      obtain ⟨_, g, hg, _⟩ := hc.1 hr
      simp [hg]
    | false =>
      simp [hc.2 hr]

/-- C7 on an explicit run: `Start`, `Start`, `Stop`, `Start` leave one worker. -/
theorem C7_start_idempotent_one_worker_witness :
    (Parser.Start (Parser.Start (New 0 demoConfig)).2).1 = (Parser.Start (New 0 demoConfig)).1 ∧
    ((Parser.calls demoStatusToMap (New 0 demoConfig)
        [Call.Start, Call.Start, Call.Stop, Call.Start]).toOption.map
      (fun rt => rt.workers.length)) = some 1 :=
  ⟨congrArg Prod.fst ((C7_start_idempotent_one_worker demoStatusToMap).2.1 (New 0 demoConfig)),
    by decide⟩

/-- C8: on a controller made by `New`, after any calls, `Status` returns
`nil` exactly when the controller is not running (so on a controller never
started, and on a stopped one); when it is running it returns the persisted
table, in which every key of the snapshot received has the value of the
snapshot and every other key the value it had, and which is the table as it
was when no pong is received. -/
theorem C8_status_merges (StatusToMap : status → List (String × String))
    (hkeys : ∀ s, ((StatusToMap s).map Prod.fst).Nodup)
    (docsChan : Nat) (config : QAN) (cs : List Call) (pong : Option status) :
    (Parser.Status StatusToMap (New docsChan config) pong
      = Except.ok (none, New docsChan config)) ∧
    (∀ rt, Parser.Status StatusToMap (Parser.Stop rt) pong = Except.ok (none, Parser.Stop rt)) ∧
    ∃ rt res rt1, Parser.calls StatusToMap (New docsChan config) cs = Except.ok rt ∧
      Parser.Status StatusToMap rt pong = Except.ok (res, rt1) ∧
      (res = none ↔ Parser.Running rt = false) ∧
      (Parser.Running rt = true →
        ∃ old table, rt.self.status = some old ∧ res = some table ∧
          rt1.self.status = some table ∧
          (∀ snap, pong = some snap →
            (∀ k v, mapGet (StatusToMap snap) k = some v → mapGet table k = some v) ∧
            (∀ k, mapGet (StatusToMap snap) k = none → mapGet table k = mapGet old k)) ∧
          (pong = none → table = old ∧ rt1 = rt)) := by
  refine ⟨by simp [Parser.Status, Parser.Running, New], ?_, ?_⟩
  · intro rt
    have hr : (Parser.Stop rt).self.running = false := by
      cases h : rt.self.running <;> simp [Parser.Stop, h]
    simp [Parser.Status, Parser.Running, hr]
  · obtain ⟨rt, h, hc⟩ := calls_consistent StatusToMap cs _ (New_consistent docsChan config)
    rcases Status_consistent StatusToMap rt pong hc with ⟨hr, hs⟩ | ⟨hr, old, hold, hs⟩
    · refine ⟨rt, none, rt, h, hs, ?_, ?_⟩
      · simp [Parser.Running, hr]
      · intro hrun
        simp [Parser.Running, hr] at hrun
    · refine ⟨rt, _, _, h, hs, ?_, ?_⟩
      · simp [Parser.Running, hr]
      · intro _
        refine ⟨old, _, hold, rfl, rfl, ?_, ?_⟩
        · intro snap hp
          subst hp
          simp only [Parser.recvPong, Option.getD_some]
          exact ⟨fun k v hv => (mapGet_merge _ (hkeys snap) old k).1 v hv,
            fun k hn => (mapGet_merge _ (hkeys snap) old k).2 hn⟩
        · intro hp
          subst hp
          simp only [Parser.recvPong, Option.getD_none, List.foldl_nil, true_and]
          cases rt with
          | mk self fresh workers closed =>
            cases self
            simp only at hold
            simp [hold]

/-- C8 on an explicit run: `Start`, then `Status` answered by the snapshot
with every counter at zero. -/
theorem C8_status_merges_witness :
    (∀ s, ((demoStatusToMap s).map Prod.fst).Nodup) ∧
    ∃ rt res rt1, Parser.calls demoStatusToMap (New 0 demoConfig) [Call.Start] = Except.ok rt ∧
      Parser.Status demoStatusToMap rt (some demoStatus) = Except.ok (res, rt1) ∧
      (res = none ↔ Parser.Running rt = false) ∧
      (Parser.Running rt = true →
        ∃ old table, rt.self.status = some old ∧ res = some table ∧
          rt1.self.status = some table ∧
          (∀ snap, some demoStatus = some snap →
            (∀ k v, mapGet (demoStatusToMap snap) k = some v → mapGet table k = some v) ∧
            (∀ k, mapGet (demoStatusToMap snap) k = none → mapGet table k = mapGet old k)) ∧
          (some demoStatus = none → table = old ∧ rt1 = rt)) :=
  ⟨fun s => by simp [demoStatusToMap],
    (C8_status_merges demoStatusToMap (fun s => by simp [demoStatusToMap]) 0 demoConfig
      [Call.Start] (some demoStatus)).2.2⟩

end MongoParser
